import Mathlib

/-!
Verification development for the GAS-RPG-TopDown attribute/effect core.

Part 1 embeds the clamp/round pipeline of
`Plugins/GASCore/Source/GASCore/Private/Attributes/GASCoreAttributeSet.cpp`
(`RoundToDecimals`, `PreAttributeChange`, `PreAttributeBaseChange`,
`PostGameplayEffectExecute`, `SetCurrentNumeric`) over ℚ as the
idealisation of `float`.

Part 2 embeds the effect actor of
`Plugins/GASCore/Source/GASCore/Private/Actors/GASCoreGameplayEffectActor.cpp`
(`OnOverlap`, `EndOverlap`, `ApplyAllGameplayEffects`,
`RemoveAllGameplayEffects`, `ApplyGameplayEffectToTarget`,
`RemoveGameplayEffectFromTarget`).
-/

namespace GASCore

/-- Attribute identifiers (`FGameplayAttribute`), interned as naturals. -/
abbrev AttrId := Nat

/-- `FMath::Clamp(X, Min, Max)`: returns `Min` if `X < Min`, else `Max` if
`Max < X`, else `X` (no relationship between `Min` and `Max` is assumed,
exactly as in the engine primitive). -/
def clampUE (x lo hi : ℚ) : ℚ :=
  if x < lo then lo else if hi < x then hi else x

/-- Executable floor of a rational (`⌊q⌋`), kept kernel-reducible so that
concrete runs of the pipeline evaluate by `decide`. -/
def ratFloor (q : ℚ) : ℤ := q.num.fdiv q.den

/-- Executable ceiling of a rational (`⌈q⌉`). -/
def ratCeil (q : ℚ) : ℤ := -(ratFloor (-q))

/-- Round a rational to the nearest integer, ties away from zero: the
semantics documented for `FMath::RoundToInt` at its use site in
`UGASCoreAttributeSet::RoundToDecimals` (comment: half-away-from-zero
rounding; the spec states the same policy). -/
def RoundToInt (x : ℚ) : ℤ :=
  if 0 ≤ x then ratFloor (x + 1/2) else ratCeil (x - 1/2)

/-- `UGASCoreAttributeSet::RoundToDecimals(Value, Decimals)`:
`Decimals ≤ 0` rounds to an integer; otherwise scale by `10^Decimals`,
round to integer, scale back. -/
def RoundToDecimals (v : ℚ) (d : ℤ) : ℚ :=
  if d ≤ 0 then (RoundToInt v : ℚ)
  else (RoundToInt (v * 10 ^ d.toNat) : ℚ) / 10 ^ d.toNat

/-- `FMath::IsNearlyEqual(A, B)` with the default tolerance
`SMALL_NUMBER = 1.e-8`. -/
def IsNearlyEqual (a b : ℚ) : Bool :=
  decide (|a - b| ≤ 1 / 100000000)

/-- Configuration of a `UGASCoreAttributeSet`:
`pairs` is the list of `RegisterCurrentMaxPair(Current, Max)` calls in
registration order (backing the `CurrentToMax` / `MaxToCurrent` maps,
where a repeated key overwrites: `TMap::Add` semantics), and
`DefaultRoundingDecimals` is the rounding policy (the base-class
`GetRoundingDecimals` returns it for every attribute; no derived set in
the repository overrides it). -/
structure AttrSetCfg where
  pairs : List (AttrId × AttrId)
  DefaultRoundingDecimals : ℤ

/-- `UGASCoreAttributeSet::TryGetMaxForCurrent` — lookup in `CurrentToMax`;
with `TMap::Add` overwrite semantics the last registration for a key wins,
hence the search over the reversed registration list. -/
def TryGetMaxForCurrent (cfg : AttrSetCfg) (c : AttrId) : Option AttrId :=
  (cfg.pairs.reverse.find? (fun p => p.1 == c)).map Prod.snd

/-- `UGASCoreAttributeSet::TryGetCurrentForMax` — lookup in `MaxToCurrent`. -/
def TryGetCurrentForMax (cfg : AttrSetCfg) (m : AttrId) : Option AttrId :=
  (cfg.pairs.reverse.find? (fun p => p.2 == m)).map Prod.fst

/-- `UGASCoreAttributeSet::GetRoundingDecimals` (base-class body:
`return DefaultRoundingDecimals;`). -/
def GetRoundingDecimals (cfg : AttrSetCfg) (_a : AttrId) : ℤ :=
  cfg.DefaultRoundingDecimals

/-- Pointwise update of an attribute-indexed map. -/
def updAttr (f : AttrId → ℚ) (a : AttrId) (v : ℚ) : AttrId → ℚ :=
  fun j => if j = a then v else f j

/-- State of one ability-system component's attributes, as GAS keeps it:
`base` is the persisted `BaseValue`, `mods` the aggregate additive
contribution of all active non-instant modifiers on the attribute, and
`cur` the committed (visible) `CurrentValue` — the value
`GetCurrentNumeric` reads, written only through `PreAttributeChange`. -/
structure GasState where
  base : AttrId → ℚ
  mods : AttrId → ℚ
  cur : AttrId → ℚ

/-- `UGASCoreAttributeSet::PreAttributeChange` — the Before-current-write
interception point: if the attribute is a registered Current with a paired
Max, clamp the incoming value to `[0, Max current]`, then round; otherwise
only round. Returns the adjusted `NewValue`. -/
def PreAttributeChange (cfg : AttrSetCfg) (st : GasState) (a : AttrId) (NewValue : ℚ) : ℚ :=
  match TryGetMaxForCurrent cfg a with
  | some maxAttr =>
      RoundToDecimals (clampUE NewValue 0 (st.cur maxAttr)) (GetRoundingDecimals cfg a)
  | none => RoundToDecimals NewValue (GetRoundingDecimals cfg a)

/-- `UGASCoreAttributeSet::PreAttributeBaseChange` — the Before-base-write
interception point: clamp to `[0, Max current]` if a pair exists, then
round in every case. -/
def PreAttributeBaseChange (cfg : AttrSetCfg) (st : GasState) (a : AttrId) (NewValue : ℚ) : ℚ :=
  let v := match TryGetMaxForCurrent cfg a with
    | some maxAttr => clampUE NewValue 0 (st.cur maxAttr)
    | none => NewValue
  RoundToDecimals v (GetRoundingDecimals cfg a)

/-- GAS recomputation of an attribute's current value once its base or its
modifier aggregate changed: the raw aggregate `base + mods` is passed
through `PreAttributeChange` and committed; the commit is reported as a
change notification `(attribute, new value)`. -/
def recomputeCurrent (cfg : AttrSetCfg) (st : GasState) (a : AttrId) : GasState × (AttrId × ℚ) :=
  let v := PreAttributeChange cfg st a (st.base a + st.mods a)
  ({ st with cur := updAttr st.cur a v }, (a, v))

/-- `UAbilitySystemComponent::SetNumericAttributeBase` as GAS performs it:
the new base runs through `PreAttributeBaseChange`, is committed, and the
attribute's current value is recomputed (through `PreAttributeChange`). -/
def SetNumericAttributeBase (cfg : AttrSetCfg) (st : GasState) (a : AttrId) (v : ℚ) :
    GasState × List (AttrId × ℚ) :=
  let b := PreAttributeBaseChange cfg st a v
  let st1 := { st with base := updAttr st.base a b }
  let r := recomputeCurrent cfg st1 a
  (r.1, [r.2])

/-- `UGASCoreAttributeSet::SetCurrentNumeric`: round under the attribute's
policy, then write the base via the owning ASC. -/
def SetCurrentNumeric (cfg : AttrSetCfg) (st : GasState) (a : AttrId) (NewValue : ℚ) :
    GasState × List (AttrId × ℚ) :=
  SetNumericAttributeBase cfg st a (RoundToDecimals NewValue (GetRoundingDecimals cfg a))

/-- `UGASCoreAttributeSet::PostGameplayEffectExecute`, specialised to the
attribute `a` that the executed effect changed: if `a` is a registered Max
with paired Current, re-clamp the Current to `[0, a's current]`, round,
and write it back through `SetCurrentNumeric` — but only when the new
value is not nearly equal to the old one. -/
def PostGameplayEffectExecute (cfg : AttrSetCfg) (st : GasState) (a : AttrId) :
    GasState × List (AttrId × ℚ) :=
  match TryGetCurrentForMax cfg a with
  | some c =>
      let mx := st.cur a
      let OldCurrent := st.cur c
      let NewCurrent := RoundToDecimals (clampUE OldCurrent 0 mx) (GetRoundingDecimals cfg c)
      if IsNearlyEqual OldCurrent NewCurrent then (st, [])
      else SetCurrentNumeric cfg st c NewCurrent
  | none => (st, [])

/-- One operation against the attribute store:
`execAdd`/`execOverride` are executed (Instant/Periodic) gameplay-effect
writes to an attribute's base (additive or override modifier), which run
the Before-base-write point, commit, recompute the current value, and then
run `PostGameplayEffectExecute`; `addMod`/`removeMod` apply or remove a
non-instant (Duration/Infinite) additive modifier, which only recompute the
current value through the Before-current-write point. -/
inductive GasOp
  | execAdd (a : AttrId) (delta : ℚ)
  | execOverride (a : AttrId) (v : ℚ)
  | addMod (a : AttrId) (m : ℚ)
  | removeMod (a : AttrId) (m : ℚ)

/-- Executed-effect write path shared by `execAdd` and `execOverride`. -/
def stepExec (cfg : AttrSetCfg) (st : GasState) (a : AttrId) (raw : ℚ) :
    GasState × List (AttrId × ℚ) :=
  let b := PreAttributeBaseChange cfg st a raw
  let st1 := { st with base := updAttr st.base a b }
  let r1 := recomputeCurrent cfg st1 a
  let r2 := PostGameplayEffectExecute cfg r1.1 a
  (r2.1, r1.2 :: r2.2)

/-- Small-step semantics of one operation; returns the new state and the
change notifications emitted by committed current-value writes. -/
def step (cfg : AttrSetCfg) (st : GasState) (op : GasOp) : GasState × List (AttrId × ℚ) :=
  match op with
  | .execAdd a delta => stepExec cfg st a (st.base a + delta)
  | .execOverride a v => stepExec cfg st a v
  | .addMod a m =>
      let st1 := { st with mods := updAttr st.mods a (st.mods a + m) }
      let r := recomputeCurrent cfg st1 a
      (r.1, [r.2])
  | .removeMod a m =>
      let st1 := { st with mods := updAttr st.mods a (st.mods a - m) }
      let r := recomputeCurrent cfg st1 a
      (r.1, [r.2])

/-- Run a sequence of operations, discarding notifications. -/
def run (cfg : AttrSetCfg) (st : GasState) (ops : List GasOp) : GasState :=
  ops.foldl (fun s op => (step cfg s op).1) st

/-- The spec's resource invariant over a committed current-value map:
every registered resource lies in `[0, current(capacity)]`. -/
def PairInv (cfg : AttrSetCfg) (cur : AttrId → ℚ) : Prop :=
  ∀ p ∈ cfg.pairs, 0 ≤ cur p.1 ∧ cur p.1 ≤ cur p.2

/-- All committed current values of registered pair attributes are fixed
points of the configured rounding policy. -/
def RoundedCurs (cfg : AttrSetCfg) (cur : AttrId → ℚ) : Prop :=
  ∀ p ∈ cfg.pairs,
    RoundToDecimals (cur p.1) cfg.DefaultRoundingDecimals = cur p.1
    ∧ RoundToDecimals (cur p.2) cfg.DefaultRoundingDecimals = cur p.2

/-- All registered capacity attributes hold a nonnegative current value. -/
def CapsNonneg (cfg : AttrSetCfg) (cur : AttrId → ℚ) : Prop :=
  ∀ p ∈ cfg.pairs, 0 ≤ cur p.2

/-- Well-formed pair registry, as the repository uses it
(`TDAttributeSet` registers Health↔MaxHealth, Mana↔MaxMana,
Stamina↔MaxStamina): no attribute is registered as resource twice, as
capacity twice, or in both roles. -/
def WFPairs (cfg : AttrSetCfg) : Prop :=
  (cfg.pairs.map Prod.fst).Nodup ∧ (cfg.pairs.map Prod.snd).Nodup
  ∧ ∀ p ∈ cfg.pairs, ∀ q ∈ cfg.pairs, p.1 ≠ q.2

/-- Operations that mutate a registered capacity attribute only through
executed (Instant/Periodic) effects — the carve-out the code forces: a
Duration/Infinite modifier on a capacity never triggers
`PostGameplayEffectExecute`, so the paired resource would not be
re-clamped. -/
def GoodOp (cfg : AttrSetCfg) : GasOp → Prop
  | .addMod a _ => ∀ p ∈ cfg.pairs, a ≠ p.2
  | .removeMod a _ => ∀ p ∈ cfg.pairs, a ≠ p.2
  | .execAdd _ _ => True
  | .execOverride _ _ => True

/-- Constant attribute map. -/
def constAttr (v : ℚ) : AttrId → ℚ := fun _ => v

/-! ## Part 2: the gameplay-effect actor
Embedding of `GASCoreGameplayEffectActor.{h,cpp}`. Gameplay-effect classes,
ability-system components and actors are interned as naturals. -/

/-- `EGASCoreEffectApplicationPolicy` (GASCoreGameplayEffectActor.h). -/
inductive ApplicationPolicy
  | ApplyOnOverlap | ApplyEndOverlap | DoNotApply
deriving DecidableEq, BEq

/-- `EGASCoreEffectRemovalPolicy` (GASCoreGameplayEffectActor.h). -/
inductive RemovalPolicy
  | RemoveOnOverlap | RemoveOnEndOverlap | DoNotRemove
deriving DecidableEq, BEq

/-- `EGameplayEffectDurationType` (engine enum): Instant, HasDuration, Infinite. -/
inductive DurationType
  | Instant | HasDuration | Infinite
deriving DecidableEq, BEq

/-- Class-default data of one `UGameplayEffect` class (its CDO): the duration
policy, the periodic interval (`> 0` means periodic), and the magnitudes it
applies, as pairs of a target attribute and a per-level additive magnitude
(the spec treats magnitude sources as opaque; only the referenced
attribute ids and a value are needed here). -/
structure EffectClassCDO where
  DurationPolicy : DurationType
  Period : ℚ
  magnitudes : List (AttrId × ℚ)

/-- `FGASCoreEffectConfig`: one authored row of the trigger actor.
`EffectClass = none` models an unset class (`nullptr`). -/
structure FGASCoreEffectConfig where
  EffectClass : Option Nat
  ApplicationPolicy : ApplicationPolicy
  RemovalPolicy : RemovalPolicy
  bDestroyOnEffectApplication : Bool
  bDestroyOnEffectRemoval : Bool
  ActorLevel : ℚ
  StacksToRemove : ℤ
deriving DecidableEq

/-- `FGASCoreTrackedEffect`: per-handle tracking info recorded at
application time. `ASC` is the weak pointer's target id (validity is
checked against the world). -/
structure FGASCoreTrackedEffect where
  ASC : Nat
  EffectClass : Option Nat
  StacksToRemove : ℤ
  bDestroyOnRemoval : Bool
deriving DecidableEq

/-- State of one target ability-system component: the attributes its
attribute sets declare (with a numeric value), and the list of active
non-instant effects as (handle, effect class, stack count). -/
structure ASCState where
  attrs : List (AttrId × ℚ)
  active : List (Nat × Nat × Nat)
deriving DecidableEq

/-- The world holds the living ASCs (a destroyed component's entry is
gone, which is what `TWeakObjectPtr::IsValid` observes) and the allocator
for process-unique active-effect handles. -/
structure World where
  ascs : List (Nat × ASCState)
  nextHandle : Nat
deriving DecidableEq

/-- Static environment: the class-default objects of every effect class and
the host lookup from an actor to its ability-system component
(`UAbilitySystemBlueprintLibrary::GetAbilitySystemComponent`). -/
structure Env where
  classDefs : Nat → EffectClassCDO
  actorToASC : Nat → Option Nat

/-- State of one `AGASCoreGameplayEffectActor`: the authored rows, the
tracked-handle map (`TMap<FActiveGameplayEffectHandle, FGASCoreTrackedEffect>`,
modelled as an association list in insertion order), and whether `Destroy()`
has been signalled. -/
structure ActorState where
  GameplayEffects : List FGASCoreEffectConfig
  ActiveGameplayEffects : List (Nat × FGASCoreTrackedEffect)
  destroyed : Bool
deriving DecidableEq

/-- Look up a living ASC. -/
def lookupASC (w : World) (id : Nat) : Option ASCState :=
  (w.ascs.find? (fun p => p.1 == id)).map Prod.snd

/-- `TWeakObjectPtr::IsValid` on a tracked ASC reference. -/
def ascValid (w : World) (id : Nat) : Bool :=
  (lookupASC w id).isSome

/-- Commit a new state for one ASC. -/
def updateASC (w : World) (id : Nat) (s : ASCState) : World :=
  { w with ascs := w.ascs.map (fun p => if p.1 == id then (p.1, s) else p) }

/-- `UAbilitySystemBlueprintLibrary::GetAbilitySystemComponent(TargetActor)`:
resolves the target actor (possibly null) to a living ASC, or none. -/
def GetAbilitySystemComponent (env : Env) (w : World) (TargetActor : Option Nat) : Option Nat :=
  match TargetActor with
  | none => none
  | some a =>
      match env.actorToASC a with
      | some id => if ascValid w id then some id else none
      | none => none

/-- `AGASCoreGameplayEffectActor::GetDurationPolicyOf` — reads the CDO's
duration policy, `Instant` for a null class. -/
def GetDurationPolicyOf (env : Env) (EffectClass : Option Nat) : DurationType :=
  match EffectClass with
  | none => .Instant
  | some cid => (env.classDefs cid).DurationPolicy

/-- `AGASCoreGameplayEffectActor::IsPeriodic` — `Period > 0`. -/
def IsPeriodic (env : Env) (EffectClass : Option Nat) : Bool :=
  match EffectClass with
  | none => false
  | some cid => decide (0 < (env.classDefs cid).Period)

/-- `AGASCoreGameplayEffectActor::IsNonInstant` — duration policy is not
`Instant` (covers HasDuration and Infinite; periodic is included). -/
def IsNonInstant (env : Env) (EffectClass : Option Nat) : Bool :=
  GetDurationPolicyOf env EffectClass != .Instant

/-- An outgoing effect spec (class at a level). -/
structure SpecHandle where
  classId : Nat
  level : ℚ
deriving DecidableEq

/-- Modelled from the spec: `UAbilitySystemComponent::MakeOutgoingSpec` is
engine code missing from the repository; per the spec's Effect Application
Engine contract, spec construction fails (and the apply call is then a
silent no-op) when the level is negative or the target has no attribute
matching a referenced magnitude id. -/
def MakeOutgoingSpec (env : Env) (w : World) (ascId cid : Nat) (level : ℚ) : Option SpecHandle :=
  match lookupASC w ascId with
  | none => none
  | some asc =>
      if level < 0 then none
      else if (env.classDefs cid).magnitudes.all
          (fun m => (asc.attrs.find? (fun p => p.1 == m.1)).isSome) then
        some ⟨cid, level⟩
      else none

/-- Modelled from the spec: `ApplyGameplayEffectSpecToSelf` is engine code.
An `Instant` spec executes immediately (its magnitudes, scaled by level,
are added to the target's attributes) and yields no valid handle; a
non-instant spec registers an active modifier under a fresh handle with
one stack and leaves attribute bases untouched. -/
def ApplyGameplayEffectSpecToSelf (env : Env) (w : World) (ascId : Nat) (spec : SpecHandle) :
    World × Option Nat :=
  match lookupASC w ascId with
  | none => (w, none)
  | some asc =>
      if GetDurationPolicyOf env (some spec.classId) == .Instant then
        let attrs := (env.classDefs spec.classId).magnitudes.foldl
          (fun ats m => ats.map (fun p => if p.1 == m.1 then (p.1, p.2 + spec.level * m.2) else p))
          asc.attrs
        (updateASC w ascId { asc with attrs := attrs }, none)
      else
        let h := w.nextHandle
        let w1 := updateASC w ascId { asc with active := (h, spec.classId, 1) :: asc.active }
        ({ w1 with nextHandle := h + 1 }, some h)

/-- Modelled from the spec: `UAbilitySystemComponent::RemoveActiveGameplayEffect
(Handle, StacksToRemove)` is engine code; per the spec's removal contract it
removes up to `StacksToRemove` stacks of the matched handle (`-1` = all) from
the active-modifier list and reports how many stacks were actually removed
(`0` when the handle's backing modifier is already gone). -/
def RemoveActiveGameplayEffect (asc : ASCState) (h : Nat) (nStacks : ℤ) : ASCState × Nat :=
  match asc.active.find? (fun e => e.1 == h) with
  | none => (asc, 0)
  | some e =>
      let count := e.2.2
      if nStacks < 0 || (count : ℤ) ≤ nStacks then
        ({ asc with active := asc.active.filter (fun x => x.1 != h) }, count)
      else
        let dec := fun (x : Nat × Nat × Nat) =>
          if x.1 == h then (x.1, x.2.1, x.2.2 - nStacks.toNat) else x
        ({ asc with active := asc.active.map dec }, nStacks.toNat)

/-- `UAbilitySystemComponent::GetActiveGameplayEffect(Handle)` as a
liveness test: does the handle still back an active effect? -/
def GetActiveGameplayEffect (asc : ASCState) (h : Nat) : Bool :=
  (asc.active.find? (fun e => e.1 == h)).isSome

/-- `TMap::Add` on the tracked-effect map: replaces the value of an
existing key, appends a fresh key. -/
def trackAdd (l : List (Nat × FGASCoreTrackedEffect)) (h : Nat) (t : FGASCoreTrackedEffect) :
    List (Nat × FGASCoreTrackedEffect) :=
  if (l.find? (fun p => p.1 == h)).isSome then
    l.map (fun p => if p.1 == h then (h, t) else p)
  else l ++ [(h, t)]

/-- `AGASCoreGameplayEffectActor::ApplyGameplayEffectToTarget`, following
the source step by step: resolve the ASC (or return), build the spec (or
return), apply it, track a valid handle when the effect is non-instant and
a removal policy is configured (normalising `StacksToRemove ≤ 0` to `-1`),
and finally signal destruction when `bDestroyOnEffectApplication` is set.
The `checkf(EffectConfig.EffectClass, ...)` assertion of the source can
only fire on a null class, which every caller filters out; a null class is
modelled as a no-op. -/
def ApplyGameplayEffectToTarget (env : Env) (w : World) (actor : ActorState)
    (TargetActor : Option Nat) (EffectConfig : FGASCoreEffectConfig) : World × ActorState :=
  match GetAbilitySystemComponent env w TargetActor with
  | none => (w, actor)
  | some TargetASC =>
      match EffectConfig.EffectClass with
      | none => (w, actor)
      | some cid =>
          match MakeOutgoingSpec env w TargetASC cid EffectConfig.ActorLevel with
          | none => (w, actor)
          | some spec =>
              let r := ApplyGameplayEffectSpecToSelf env w TargetASC spec
              let actor1 :=
                match r.2 with
                | some h =>
                    if EffectConfig.RemovalPolicy != .DoNotRemove
                        && IsNonInstant env (some cid) then
                      let Track : FGASCoreTrackedEffect :=
                        ⟨TargetASC, some cid,
                          if EffectConfig.StacksToRemove ≤ 0 then -1
                          else EffectConfig.StacksToRemove,
                          EffectConfig.bDestroyOnEffectRemoval⟩
                      let m := trackAdd actor.ActiveGameplayEffects h Track
                      { actor with ActiveGameplayEffects := m }
                    else actor
                | none => actor
              let actor2 :=
                if EffectConfig.bDestroyOnEffectApplication then { actor1 with destroyed := true }
                else actor1
              (r.1, actor2)

/-- Matching test of the collection pass in
`RemoveGameplayEffectFromTarget`: the tracked weak ASC is still valid,
equals the resolved target ASC, and the tracked class equals the row's. -/
def matchesForRemoval (w : World) (TargetASC : Nat) (cfgClass : Option Nat)
    (t : FGASCoreTrackedEffect) : Bool :=
  ascValid w t.ASC && t.ASC == TargetASC && t.EffectClass == cfgClass

/-- One iteration of the removal loop of `RemoveGameplayEffectFromTarget`
(steps 3 of the source): accumulator is (world, bRemovedAnyStacks,
bDestroyAfterRemoval). -/
def removalStep (tracked : List (Nat × FGASCoreTrackedEffect)) (TargetASC : Nat)
    (acc : World × Bool × Bool) (h : Nat) : World × Bool × Bool :=
  match (tracked.find? (fun p => p.1 == h)).map Prod.snd with
  | none => acc
  | some t =>
      if !ascValid acc.1 t.ASC then acc
      else
        match lookupASC acc.1 TargetASC with
        | none => acc
        | some ascSt =>
            let r := RemoveActiveGameplayEffect ascSt h t.StacksToRemove
            (updateASC acc.1 TargetASC r.1,
              acc.2.1 || (r.2 != 0),
              acc.2.2 || ((r.2 != 0) && t.bDestroyOnRemoval))

/-- One iteration of the cleanup pass (step 4 of the source): purge the
handle when its tracked entry is gone or its weak ASC invalid, or when the
handle no longer backs an active effect on the target ASC. -/
def cleanupStep (w1 : World) (TargetASC : Nat)
    (m : List (Nat × FGASCoreTrackedEffect)) (h : Nat) : List (Nat × FGASCoreTrackedEffect) :=
  match (m.find? (fun p => p.1 == h)).map Prod.snd with
  | none => m.filter (fun p => p.1 != h)
  | some t =>
      let bASCInvalid := !ascValid w1 t.ASC
      let bHandleGone := !bASCInvalid
        && !GetActiveGameplayEffect ((lookupASC w1 TargetASC).getD ⟨[], []⟩) h
      if bASCInvalid || bHandleGone then m.filter (fun p => p.1 != h) else m

/-- ASC-level view of one removal-loop iteration: the same transition as
`removalStep`, but on the target ASC's state alone (the loop only ever
writes the resolved target ASC). -/
def removalStepASC (tracked : List (Nat × FGASCoreTrackedEffect))
    (acc : ASCState × Bool × Bool) (h : Nat) : ASCState × Bool × Bool :=
  match (tracked.find? (fun p => p.1 == h)).map Prod.snd with
  | none => acc
  | some t =>
      let r := RemoveActiveGameplayEffect acc.1 h t.StacksToRemove
      (r.1, acc.2.1 || (r.2 != 0), acc.2.2 || ((r.2 != 0) && t.bDestroyOnRemoval))

/-- ASC-level view of the whole removal loop. -/
def removalLoopASC (tracked : List (Nat × FGASCoreTrackedEffect)) (hs : List Nat)
    (s : ASCState) (fl : Bool × Bool) : ASCState × Bool × Bool :=
  hs.foldl (removalStepASC tracked) (s, fl)

/-- Did requesting removal of handle `h` (with its per-handle recorded
stack count) remove any stacks, measured against ASC state `s`? -/
def removedNonzero (tracked : List (Nat × FGASCoreTrackedEffect)) (s : ASCState) (h : Nat) :
    Bool :=
  match (tracked.find? (fun p => p.1 == h)).map Prod.snd with
  | none => false
  | some t => (RemoveActiveGameplayEffect s h t.StacksToRemove).2 != 0

/-- Did handle `h` both remove stacks and carry the destroy-on-removal
intent? -/
def removedDestroy (tracked : List (Nat × FGASCoreTrackedEffect)) (s : ASCState) (h : Nat) :
    Bool :=
  match (tracked.find? (fun p => p.1 == h)).map Prod.snd with
  | none => false
  | some t => ((RemoveActiveGameplayEffect s h t.StacksToRemove).2 != 0) && t.bDestroyOnRemoval

/-- `AGASCoreGameplayEffectActor::RemoveGameplayEffectFromTarget`:
resolve the ASC (or return); collect the matching tracked handles; remove
stacks for each (using the per-handle recorded `StacksToRemove`), noting
whether any stacks were removed and whether a removing handle asked for
actor destruction; purge stale entries; destroy once at the end if
requested. -/
def RemoveGameplayEffectFromTarget (env : Env) (w : World) (actor : ActorState)
    (TargetActor : Option Nat) (EffectConfig : FGASCoreEffectConfig) : World × ActorState :=
  match GetAbilitySystemComponent env w TargetActor with
  | none => (w, actor)
  | some TargetASC =>
      let HandlesForThisASC :=
        (actor.ActiveGameplayEffects.filter
          (fun p => matchesForRemoval w TargetASC EffectConfig.EffectClass p.2)).map Prod.fst
      let loop := HandlesForThisASC.foldl
        (removalStep actor.ActiveGameplayEffects TargetASC) (w, false, false)
      let cleaned := HandlesForThisASC.foldl (cleanupStep loop.1 TargetASC)
        actor.ActiveGameplayEffects
      let actor1 := { actor with ActiveGameplayEffects := cleaned }
      let actor2 :=
        if loop.2.1 && loop.2.2 then { actor1 with destroyed := true } else actor1
      (loop.1, actor2)

/-- `AGASCoreGameplayEffectActor::ApplyAllGameplayEffects`: iterate the
authored rows in order and apply those with a set class and a matching
application policy. -/
def ApplyAllGameplayEffects (env : Env) (w : World) (actor : ActorState)
    (TargetActor : Option Nat) (policy : ApplicationPolicy) : World × ActorState :=
  actor.GameplayEffects.foldl
    (fun acc cfg =>
      if cfg.EffectClass.isSome && cfg.ApplicationPolicy == policy then
        ApplyGameplayEffectToTarget env acc.1 acc.2 TargetActor cfg
      else acc)
    (w, actor)

/-- `AGASCoreGameplayEffectActor::RemoveAllGameplayEffects`: iterate the
authored rows in order and remove those with a set class and a matching
removal policy. -/
def RemoveAllGameplayEffects (env : Env) (w : World) (actor : ActorState)
    (TargetActor : Option Nat) (policy : RemovalPolicy) : World × ActorState :=
  actor.GameplayEffects.foldl
    (fun acc cfg =>
      if cfg.EffectClass.isSome && cfg.RemovalPolicy == policy then
        RemoveGameplayEffectFromTarget env acc.1 acc.2 TargetActor cfg
      else acc)
    (w, actor)

/-- `AGASCoreGameplayEffectActor::OnOverlap`: early-out on a null target,
then apply the `ApplyOnOverlap` rows and remove the `RemoveOnOverlap`
rows. -/
def OnOverlap (env : Env) (w : World) (actor : ActorState) (TargetActor : Option Nat) :
    World × ActorState :=
  match TargetActor with
  | none => (w, actor)
  | some _ =>
      let r := ApplyAllGameplayEffects env w actor TargetActor .ApplyOnOverlap
      RemoveAllGameplayEffects env r.1 r.2 TargetActor .RemoveOnOverlap

/-- `AGASCoreGameplayEffectActor::EndOverlap`: early-out on a null target,
then apply the `ApplyEndOverlap` rows and remove the `RemoveOnEndOverlap`
rows. -/
def EndOverlap (env : Env) (w : World) (actor : ActorState) (TargetActor : Option Nat) :
    World × ActorState :=
  match TargetActor with
  | none => (w, actor)
  | some _ =>
      let r := ApplyAllGameplayEffects env w actor TargetActor .ApplyEndOverlap
      RemoveAllGameplayEffects env r.1 r.2 TargetActor .RemoveOnEndOverlap

end GASCore

section ExampleData
open GASCore

/-- The game's Health(0) ↔ MaxHealth(1) pair with the plugin's default
rounding (`DefaultRoundingDecimals = 0`). -/
def cfgHM : AttrSetCfg := ⟨[(0, 1)], 0⟩

/-- A state with `Health = h`, `MaxHealth = m`, no aggregator modifiers. -/
def stHM (h m : ℚ) : GasState :=
  { base := updAttr (updAttr (constAttr 0) 0 h) 1 m
    mods := constAttr 0
    cur := updAttr (updAttr (constAttr 0) 0 h) 1 m }

/-- A small static environment: class 1 is an Infinite effect with a
+20-per-level magnitude on attribute 1, class 2 an Instant +10 on
attribute 0, every other class an Instant +1 on attribute 9 (which the
example target does not declare); actor 5 resolves to ASC 7. -/
def env0 : Env :=
  { classDefs := fun cid =>
      if cid == 1 then ⟨.Infinite, 0, [(1, 20)]⟩
      else if cid == 2 then ⟨.Instant, 0, [(0, 10)]⟩
      else ⟨.Instant, 0, [(9, 1)]⟩
    actorToASC := fun a => if a == 5 then some 7 else none }

/-- A world with one ASC (id 7) declaring attributes 0 and 1 and no active
effects. -/
def w0 : World := ⟨[(7, ⟨[(0, 90), (1, 100)], []⟩)], 0⟩

/-- A world where ASC 7 additionally holds one stack of class 1 under the
active handle 5. -/
def wAct : World := ⟨[(7, ⟨[(0, 90), (1, 100)], [(5, 1, 1)]⟩)], 6⟩

/-- An authored row: class 1, apply on overlap, remove on end-overlap,
`StacksToRemove = 0` (to be normalised to −1). -/
def row1 : FGASCoreEffectConfig :=
  ⟨some 1, .ApplyOnOverlap, .RemoveOnEndOverlap, false, false, 1, 0⟩

/-- An authored row whose class 3 references magnitude attribute 9, which
the example target does not declare. -/
def row3 : FGASCoreEffectConfig :=
  ⟨some 3, .ApplyOnOverlap, .DoNotRemove, false, false, 1, -1⟩

/-- A trigger actor with the single row `row1` and an empty registry. -/
def actor0 : ActorState := ⟨[row1], [], false⟩

/-- A trigger actor already tracking handle 5 (class 1 on ASC 7, remove
all stacks, destroy on removal). -/
def actorStale : ActorState := ⟨[row1], [(5, ⟨7, some 1, -1, true⟩)], false⟩

end ExampleData

namespace GASCore

/-! ## Lemmas on the rounding primitive -/

theorem ratFloor_eq (q : ℚ) : ratFloor q = ⌊q⌋ := by
  rw [Rat.floor_def, ratFloor, Int.fdiv_eq_ediv _ (Int.natCast_nonneg q.den)]

theorem ratCeil_eq (q : ℚ) : ratCeil q = ⌈q⌉ := by
  rw [ratCeil, ratFloor_eq, Int.floor_neg, neg_neg]

theorem RoundToInt_eq (x : ℚ) :
    RoundToInt x = if 0 ≤ x then ⌊x + 1/2⌋ else ⌈x - 1/2⌉ := by
  rw [RoundToInt, ratFloor_eq, ratCeil_eq]

theorem floor_half_q : ⌊(1/2 : ℚ)⌋ = 0 :=
  Int.floor_eq_iff.mpr (by norm_num)

theorem ceil_neg_half_q : ⌈(-(1/2) : ℚ)⌉ = 0 :=
  Int.ceil_eq_iff.mpr (by norm_num)

theorem RoundToInt_intCast (k : ℤ) : RoundToInt (k : ℚ) = k := by
  rw [RoundToInt_eq]
  by_cases h : (0 : ℚ) ≤ (k : ℚ)
  · rw [if_pos h, Int.floor_int_add, floor_half_q, add_zero]
  · rw [if_neg h]
    have e : (k : ℚ) - 1/2 = -(1/2) + (k : ℚ) := by ring
    rw [e, Int.ceil_add_int, ceil_neg_half_q, zero_add]

theorem RoundToInt_zero : RoundToInt 0 = 0 := by
  simpa using RoundToInt_intCast 0

theorem RoundToInt_mono {x y : ℚ} (h : x ≤ y) : RoundToInt x ≤ RoundToInt y := by
  rw [RoundToInt_eq, RoundToInt_eq]
  by_cases hx : (0 : ℚ) ≤ x
  · have hy : (0 : ℚ) ≤ y := le_trans hx h
    rw [if_pos hx, if_pos hy]
    exact Int.floor_mono (by linarith)
  · by_cases hy : (0 : ℚ) ≤ y
    · rw [if_neg hx, if_pos hy]
      have h1 : ⌈x - 1/2⌉ ≤ 0 := by
        rw [← ceil_neg_half_q]
        exact Int.ceil_mono (by linarith [not_le.mp hx])
      have h2 : (0 : ℤ) ≤ ⌊y + 1/2⌋ := by
        rw [← floor_half_q]
        exact Int.floor_mono (by linarith)
      omega
    · rw [if_neg hx, if_neg hy]
      exact Int.ceil_mono (by linarith)

theorem RoundToInt_le_add_half (x : ℚ) : (RoundToInt x : ℚ) ≤ x + 1/2 := by
  rw [RoundToInt_eq]
  by_cases hx : (0 : ℚ) ≤ x
  · rw [if_pos hx]; exact Int.floor_le _
  · rw [if_neg hx]
    have := Int.ceil_lt_add_one (x - 1/2)
    linarith

theorem sub_half_le_RoundToInt (x : ℚ) : x - 1/2 ≤ (RoundToInt x : ℚ) := by
  rw [RoundToInt_eq]
  by_cases hx : (0 : ℚ) ≤ x
  · rw [if_pos hx]
    have := Int.lt_floor_add_one (x + 1/2)
    linarith
  · rw [if_neg hx]; exact Int.le_ceil _

theorem RoundToInt_dist (x : ℚ) : |(RoundToInt x : ℚ) - x| ≤ 1/2 :=
  abs_le.mpr ⟨by linarith [sub_half_le_RoundToInt x], by linarith [RoundToInt_le_add_half x]⟩

/-- At an exact tie, `RoundToInt` moves away from zero: the magnitude of the
result exceeds the magnitude of the input by exactly one half. -/
theorem RoundToInt_tie_away (x : ℚ) (h : |(RoundToInt x : ℚ) - x| = 1/2) :
    |(RoundToInt x : ℚ)| = |x| + 1/2 := by
  rcases abs_eq (by norm_num : (0:ℚ) ≤ 1/2) |>.mp h with h1 | h1
  · -- RoundToInt x = x + 1/2
    have hx : 0 ≤ x := by
      by_contra hneg
      push_neg at hneg
      have hlt : (RoundToInt x : ℚ) < x + 1/2 := by
        rw [RoundToInt_eq, if_neg (not_le.mpr hneg)]
        have := Int.ceil_lt_add_one (x - 1/2)
        linarith
      linarith
    have hr : (RoundToInt x : ℚ) = x + 1/2 := by linarith
    rw [hr, abs_of_nonneg (by linarith), abs_of_nonneg hx]
  · -- RoundToInt x = x - 1/2
    have hx : ¬ (0 ≤ x) := by
      intro hge
      have hgt : x - 1/2 < (RoundToInt x : ℚ) := by
        rw [RoundToInt_eq, if_pos hge]
        have := Int.lt_floor_add_one (x + 1/2)
        linarith
      linarith
    push_neg at hx
    have hr : (RoundToInt x : ℚ) = x - 1/2 := by linarith
    rw [hr, abs_of_nonpos (by linarith), abs_of_nonpos (le_of_lt hx)]
    ring

/-! ## Lemmas on `RoundToDecimals` -/

theorem RoundToDecimals_mono (d : ℤ) {x y : ℚ} (h : x ≤ y) :
    RoundToDecimals x d ≤ RoundToDecimals y d := by
  rw [RoundToDecimals, RoundToDecimals]
  by_cases hd : d ≤ 0
  · rw [if_pos hd, if_pos hd]
    exact_mod_cast RoundToInt_mono h
  · rw [if_neg hd, if_neg hd]
    have h2 : (RoundToInt (x * 10 ^ d.toNat) : ℚ) ≤ RoundToInt (y * 10 ^ d.toNat) := by
      exact_mod_cast RoundToInt_mono (mul_le_mul_of_nonneg_right h (by positivity))
    gcongr

theorem RoundToDecimals_zero (d : ℤ) : RoundToDecimals 0 d = 0 := by
  rw [RoundToDecimals]
  by_cases hd : d ≤ 0
  · rw [if_pos hd, RoundToInt_zero]; norm_num
  · rw [if_neg hd, zero_mul, RoundToInt_zero]; norm_num

/-- A value of the form `m / 10^(toNat d)` is a fixed point of
`RoundToDecimals · d`. -/
theorem RoundToDecimals_fixed (m : ℤ) (d : ℤ) :
    RoundToDecimals ((m : ℚ) / 10 ^ d.toNat) d = (m : ℚ) / 10 ^ d.toNat := by
  rw [RoundToDecimals]
  by_cases hd : d ≤ 0
  · rw [if_pos hd, Int.toNat_of_nonpos hd]
    simpa using congrArg (fun k : ℤ => (k : ℚ)) (RoundToInt_intCast m)
  · rw [if_neg hd]
    have hpow : (10 : ℚ) ^ d.toNat ≠ 0 := by positivity
    rw [div_mul_cancel₀ _ hpow, RoundToInt_intCast]

/-- Every output of `RoundToDecimals · d` has the form `m / 10^(toNat d)`. -/
theorem RoundToDecimals_form (v : ℚ) (d : ℤ) :
    ∃ m : ℤ, RoundToDecimals v d = (m : ℚ) / 10 ^ d.toNat := by
  rw [RoundToDecimals]
  by_cases hd : d ≤ 0
  · rw [if_pos hd, Int.toNat_of_nonpos hd]
    exact ⟨RoundToInt v, by norm_num⟩
  · rw [if_neg hd]
    exact ⟨RoundToInt (v * 10 ^ d.toNat), rfl⟩

/-- `RoundToDecimals` is idempotent. -/
theorem RoundToDecimals_idem (v : ℚ) (d : ℤ) :
    RoundToDecimals (RoundToDecimals v d) d = RoundToDecimals v d := by
  obtain ⟨m, hm⟩ := RoundToDecimals_form v d
  rw [hm, RoundToDecimals_fixed]

/-! ## Lemmas on `clampUE` and the write pipeline -/

theorem clampUE_nonneg {x M : ℚ} (hM : 0 ≤ M) : 0 ≤ clampUE x 0 M := by
  rw [clampUE]
  split
  · exact le_refl 0
  · split
    · exact hM
    · linarith [not_lt.mp (by assumption : ¬ x < 0)]

theorem clampUE_le_max {x M : ℚ} (hM : 0 ≤ M) : clampUE x 0 M ≤ M := by
  rw [clampUE]
  split
  · exact hM
  · split
    · exact le_refl M
    · exact not_lt.mp (by assumption)

theorem clampUE_eq_self {x M : ℚ} (h0 : 0 ≤ x) (hM : x ≤ M) : clampUE x 0 M = x := by
  rw [clampUE, if_neg (not_lt.mpr h0), if_neg (not_lt.mpr hM)]

/-- Clamping to `[0, M]` and rounding lands in `[0, M]`, provided `M` is
nonnegative and itself a fixed point of the rounding policy. -/
theorem clampRound_mem {x M : ℚ} {d : ℤ} (hM : 0 ≤ M) (hMr : RoundToDecimals M d = M) :
    0 ≤ RoundToDecimals (clampUE x 0 M) d ∧ RoundToDecimals (clampUE x 0 M) d ≤ M := by
  constructor
  · have := RoundToDecimals_mono d (@clampUE_nonneg x M hM)
    rwa [RoundToDecimals_zero] at this
  · have := RoundToDecimals_mono d (@clampUE_le_max x M hM)
    rwa [hMr] at this

/-- Two distinct fixed points of `RoundToDecimals · d` with `d ≤ 7` are
never `IsNearlyEqual` (tolerance `1.e-8` cannot blur two distinct
multiples of `10^-d`). -/
theorem rounded_ne_not_nearlyEqual {x y : ℚ} {d : ℤ} (hd : d ≤ 7)
    (hx : RoundToDecimals x d = x) (hy : RoundToDecimals y d = y) (hne : x ≠ y) :
    IsNearlyEqual x y = false := by
  obtain ⟨a, ha⟩ := RoundToDecimals_form x d
  obtain ⟨b, hb⟩ := RoundToDecimals_form y d
  rw [hx] at ha
  rw [hy] at hb
  have hn7 : d.toNat ≤ 7 := by omega
  have hpow : (0 : ℚ) < 10 ^ d.toNat := by positivity
  have hab : a ≠ b := by
    intro hc
    exact hne (by rw [ha, hb, hc])
  have h1le : (1 : ℚ) ≤ |(a : ℚ) - b| := by
    have h1 : (1 : ℤ) ≤ |a - b| := Int.one_le_abs (sub_ne_zero.mpr hab)
    calc (1 : ℚ) ≤ ((|a - b| : ℤ) : ℚ) := by exact_mod_cast h1
    _ = |(a : ℚ) - b| := by rw [Int.cast_abs, Int.cast_sub]
  have hdist : 1 / 10 ^ (7 : ℕ) ≤ |x - y| := by
    rw [ha, hb, div_sub_div_same, abs_div, abs_of_pos hpow]
    have hle : (10 : ℚ) ^ d.toNat ≤ 10 ^ (7 : ℕ) :=
      pow_le_pow_right₀ (by norm_num) hn7
    calc (1 : ℚ) / 10 ^ (7 : ℕ) ≤ 1 / 10 ^ d.toNat := by
          apply one_div_le_one_div_of_le hpow hle
    _ ≤ |(a : ℚ) - b| / 10 ^ d.toNat := by gcongr
  rw [IsNearlyEqual]
  apply decide_eq_false
  intro hle
  have : (1 : ℚ) / 10 ^ (7 : ℕ) ≤ 1 / 100000000 := le_trans hdist hle
  norm_num at this

/-- `RoundToDecimals v d` scaled back up is exactly the integer rounding of
the scaled input. -/
theorem RoundToDecimals_scaled (v : ℚ) (d : ℤ) :
    RoundToDecimals v d * 10 ^ d.toNat = (RoundToInt (v * 10 ^ d.toNat) : ℚ) := by
  rw [RoundToDecimals]
  by_cases hd : d ≤ 0
  · rw [if_pos hd, Int.toNat_of_nonpos hd, pow_zero, mul_one, mul_one]
  · rw [if_neg hd]
    have hpow : (10 : ℚ) ^ d.toNat ≠ 0 := by positivity
    rw [div_mul_cancel₀ _ hpow]

/-- Every value produced by `PreAttributeChange` is a fixed point of the
attribute's rounding policy. -/
theorem PreAttributeChange_isRounded (cfg : AttrSetCfg) (st : GasState) (a : AttrId) (v : ℚ) :
    RoundToDecimals (PreAttributeChange cfg st a v) (GetRoundingDecimals cfg a)
      = PreAttributeChange cfg st a v := by
  rw [PreAttributeChange]
  cases TryGetMaxForCurrent cfg a with
  | none => exact RoundToDecimals_idem _ _
  | some maxAttr => exact RoundToDecimals_idem _ _

/-- Every value produced by `PreAttributeBaseChange` is a fixed point of
the attribute's rounding policy. -/
theorem PreAttributeBaseChange_isRounded (cfg : AttrSetCfg) (st : GasState) (a : AttrId) (v : ℚ) :
    RoundToDecimals (PreAttributeBaseChange cfg st a v) (GetRoundingDecimals cfg a)
      = PreAttributeBaseChange cfg st a v := by
  rw [PreAttributeBaseChange]
  exact RoundToDecimals_idem _ _

/-- Values committed by `recomputeCurrent` are rounding fixed points. -/
theorem recomputeCurrent_isRounded (cfg : AttrSetCfg) (st : GasState) (a : AttrId) :
    RoundToDecimals (recomputeCurrent cfg st a).2.2
        (GetRoundingDecimals cfg (recomputeCurrent cfg st a).2.1)
      = (recomputeCurrent cfg st a).2.2 := by
  rw [recomputeCurrent]
  exact PreAttributeChange_isRounded cfg st a _

/-- C7 — For every value already within `[0, current(capacity)]` and
already rounded under the attribute's rounding policy, the
Before-current-write clamp/round pipeline (`PreAttributeChange`) returns
the value unchanged, and hence applying the pipeline twice yields the same
result as applying it once. -/
theorem claim_C7 (cfg : AttrSetCfg) (st : GasState) (a maxAttr : AttrId) (v : ℚ)
    (hpair : TryGetMaxForCurrent cfg a = some maxAttr)
    (h0 : 0 ≤ v) (hM : v ≤ st.cur maxAttr)
    (hr : RoundToDecimals v (GetRoundingDecimals cfg a) = v) :
    PreAttributeChange cfg st a v = v ∧
    PreAttributeChange cfg st a (PreAttributeChange cfg st a v)
      = PreAttributeChange cfg st a v := by
  have h1 : PreAttributeChange cfg st a v = v := by
    rw [PreAttributeChange, hpair]
    simp only
    rw [clampUE_eq_self h0 hM, hr]
  exact ⟨h1, by rw [h1]; exact h1⟩

/-- C8 — The rounding step rounds to `N` decimals with ties away from zero
(`N ≤ 0` produces integers), and the same rounding function
(`RoundToDecimals` at the attribute's `GetRoundingDecimals`) governs the
value produced after current-writes (`PreAttributeChange`), after
base-writes (`PreAttributeBaseChange`), and after the authoritative
re-clamp write-back (`PostGameplayEffectExecute`): each such value is a
fixed point of it. -/
theorem claim_C8 (v : ℚ) (d : ℤ) :
    (|RoundToDecimals v d * 10 ^ d.toNat - v * 10 ^ d.toNat| ≤ 1/2
      ∧ (|RoundToDecimals v d * 10 ^ d.toNat - v * 10 ^ d.toNat| = 1/2 →
          |RoundToDecimals v d * 10 ^ d.toNat| = |v * 10 ^ d.toNat| + 1/2))
    ∧ (d ≤ 0 → ∃ k : ℤ, RoundToDecimals v d = (k : ℚ))
    ∧ (∀ (cfg : AttrSetCfg) (st : GasState) (a : AttrId),
        RoundToDecimals (PreAttributeChange cfg st a v) (GetRoundingDecimals cfg a)
          = PreAttributeChange cfg st a v
        ∧ RoundToDecimals (PreAttributeBaseChange cfg st a v) (GetRoundingDecimals cfg a)
          = PreAttributeBaseChange cfg st a v
        ∧ ∀ p ∈ (PostGameplayEffectExecute cfg st a).2,
            RoundToDecimals p.2 (GetRoundingDecimals cfg p.1) = p.2) := by
  refine ⟨⟨?_, ?_⟩, ?_, ?_⟩
  · rw [RoundToDecimals_scaled]
    exact RoundToInt_dist (v * 10 ^ d.toNat)
  · rw [RoundToDecimals_scaled]
    exact RoundToInt_tie_away (v * 10 ^ d.toNat)
  · intro hd
    refine ⟨RoundToInt v, ?_⟩
    rw [RoundToDecimals, if_pos hd]
  · intro cfg st a
    refine ⟨PreAttributeChange_isRounded cfg st a v,
      PreAttributeBaseChange_isRounded cfg st a v, ?_⟩
    intro p hp
    rw [PostGameplayEffectExecute] at hp
    cases hmax : TryGetCurrentForMax cfg a with
    | none => rw [hmax] at hp; simp at hp
    | some c =>
        rw [hmax] at hp
        simp only at hp
        by_cases hne : IsNearlyEqual (st.cur c)
            (RoundToDecimals (clampUE (st.cur c) 0 (st.cur a)) (GetRoundingDecimals cfg c)) = true
        · rw [if_pos hne] at hp
          simp at hp
        · rw [if_neg hne] at hp
          rw [SetCurrentNumeric, SetNumericAttributeBase] at hp
          simp only [List.mem_singleton] at hp
          subst hp
          exact recomputeCurrent_isRounded cfg _ c

/-! ## Lemmas on the pair registry lookups -/

theorem updAttr_same (f : AttrId → ℚ) (a : AttrId) (v : ℚ) : updAttr f a v a = v := by
  simp [updAttr]

theorem updAttr_other (f : AttrId → ℚ) (a : AttrId) (v : ℚ) {b : AttrId} (h : b ≠ a) :
    updAttr f a v b = f b := by
  simp [updAttr, h]

theorem find?_fst_of_nodup {β : Type _} :
    ∀ {l : List (Nat × β)}, (l.map Prod.fst).Nodup →
      ∀ {c : Nat} {m : β}, (c, m) ∈ l → l.find? (fun p => p.1 == c) = some (c, m) := by
  intro l
  induction l with
  | nil => intro _ c m hmem; simp at hmem
  | cons hd tl ih =>
      intro hnd c m hmem
      rw [List.map_cons, List.nodup_cons] at hnd
      by_cases hc : hd.1 = c
      · have hhd : hd = (c, m) := by
          rcases List.mem_cons.mp hmem with h | h
          · exact h.symm
          · exfalso
            apply hnd.1
            rw [hc]
            exact List.mem_map.mpr ⟨(c, m), h, rfl⟩
        rw [List.find?_cons_of_pos _ (by simp [hc]), hhd]
      · have hmem2 : (c, m) ∈ tl := by
          rcases List.mem_cons.mp hmem with h | h
          · exact absurd (congrArg Prod.fst h.symm) hc
          · exact h
        rw [List.find?_cons_of_neg _ (by simp [hc])]
        exact ih hnd.2 hmem2

theorem find?_snd_of_nodup :
    ∀ {l : List (AttrId × AttrId)}, (l.map Prod.snd).Nodup →
      ∀ {c m : AttrId}, (c, m) ∈ l → l.find? (fun p => p.2 == m) = some (c, m) := by
  intro l
  induction l with
  | nil => intro _ c m hmem; simp at hmem
  | cons hd tl ih =>
      intro hnd c m hmem
      rw [List.map_cons, List.nodup_cons] at hnd
      by_cases hc : hd.2 = m
      · have hhd : hd = (c, m) := by
          rcases List.mem_cons.mp hmem with h | h
          · exact h.symm
          · exfalso
            apply hnd.1
            rw [hc]
            exact List.mem_map.mpr ⟨(c, m), h, rfl⟩
        rw [List.find?_cons_of_pos _ (by simp [hc]), hhd]
      · have hmem2 : (c, m) ∈ tl := by
          rcases List.mem_cons.mp hmem with h | h
          · exact absurd (congrArg Prod.snd h.symm) hc
          · exact h
        rw [List.find?_cons_of_neg _ (by simp [hc])]
        exact ih hnd.2 hmem2

theorem TryGetMaxForCurrent_of_mem {cfg : AttrSetCfg} (hwf : WFPairs cfg)
    {c m : AttrId} (hmem : (c, m) ∈ cfg.pairs) : TryGetMaxForCurrent cfg c = some m := by
  rw [TryGetMaxForCurrent]
  have hnd : (cfg.pairs.reverse.map Prod.fst).Nodup := by
    rw [List.map_reverse]
    exact List.nodup_reverse.mpr hwf.1
  rw [find?_fst_of_nodup hnd (List.mem_reverse.mpr hmem)]
  rfl

theorem TryGetCurrentForMax_of_mem {cfg : AttrSetCfg} (hwf : WFPairs cfg)
    {c m : AttrId} (hmem : (c, m) ∈ cfg.pairs) : TryGetCurrentForMax cfg m = some c := by
  rw [TryGetCurrentForMax]
  have hnd : (cfg.pairs.reverse.map Prod.snd).Nodup := by
    rw [List.map_reverse]
    exact List.nodup_reverse.mpr hwf.2.1
  rw [find?_snd_of_nodup hnd (List.mem_reverse.mpr hmem)]
  rfl

theorem TryGetMaxForCurrent_none {cfg : AttrSetCfg} {k : AttrId}
    (h : ∀ p ∈ cfg.pairs, p.1 ≠ k) : TryGetMaxForCurrent cfg k = none := by
  rw [TryGetMaxForCurrent, List.find?_eq_none.mpr]
  · rfl
  intro p hp
  simpa using h p (List.mem_reverse.mp hp)

theorem TryGetCurrentForMax_none {cfg : AttrSetCfg} {k : AttrId}
    (h : ∀ p ∈ cfg.pairs, p.2 ≠ k) : TryGetCurrentForMax cfg k = none := by
  rw [TryGetCurrentForMax, List.find?_eq_none.mpr]
  · rfl
  intro p hp
  simpa using h p (List.mem_reverse.mp hp)

theorem WF_fst_inj {cfg : AttrSetCfg} (hwf : WFPairs cfg) {c m m' : AttrId}
    (h1 : (c, m) ∈ cfg.pairs) (h2 : (c, m') ∈ cfg.pairs) : m = m' := by
  have e1 := TryGetMaxForCurrent_of_mem hwf h1
  have e2 := TryGetMaxForCurrent_of_mem hwf h2
  rw [e1] at e2
  exact Option.some_inj.mp e2

theorem WF_snd_inj {cfg : AttrSetCfg} (hwf : WFPairs cfg) {c c' m : AttrId}
    (h1 : (c, m) ∈ cfg.pairs) (h2 : (c', m) ∈ cfg.pairs) : c = c' := by
  have e1 := TryGetCurrentForMax_of_mem hwf h1
  have e2 := TryGetCurrentForMax_of_mem hwf h2
  rw [e1] at e2
  exact Option.some_inj.mp e2

theorem TryGetCurrentForMax_mem {cfg : AttrSetCfg} {m c : AttrId}
    (h : TryGetCurrentForMax cfg m = some c) : (c, m) ∈ cfg.pairs := by
  rw [TryGetCurrentForMax] at h
  cases hf : cfg.pairs.reverse.find? (fun p => p.2 == m) with
  | none => rw [hf] at h; simp at h
  | some p =>
      rw [hf] at h
      have hp1 : p.1 = c := by simpa using h
      have hp2 : p.2 = m := by simpa using List.find?_some hf
      have hmem : p ∈ cfg.pairs := List.mem_reverse.mp (List.mem_of_find?_eq_some hf)
      rwa [← hp1, ← hp2, Prod.mk.eta]

theorem TryGetMaxForCurrent_mem {cfg : AttrSetCfg} {c m : AttrId}
    (h : TryGetMaxForCurrent cfg c = some m) : (c, m) ∈ cfg.pairs := by
  rw [TryGetMaxForCurrent] at h
  cases hf : cfg.pairs.reverse.find? (fun p => p.1 == c) with
  | none => rw [hf] at h; simp at h
  | some p =>
      rw [hf] at h
      have hp2 : p.2 = m := by simpa using h
      have hp1 : p.1 = c := by simpa using List.find?_some hf
      have hmem : p ∈ cfg.pairs := List.mem_reverse.mp (List.mem_of_find?_eq_some hf)
      rwa [← hp1, ← hp2, Prod.mk.eta]

/-! ## Invariant preservation: update lemmas -/

theorem PreAttributeChange_cur_only (cfg : AttrSetCfg) {st1 st2 : GasState} (a : AttrId)
    (v : ℚ) (h : st1.cur = st2.cur) :
    PreAttributeChange cfg st1 a v = PreAttributeChange cfg st2 a v := by
  rw [PreAttributeChange, PreAttributeChange, h]

/-- Writing a non-capacity attribute `a` with a value that, whenever `a` is
a registered resource, is already clamped to its capacity and rounded,
preserves the invariant and roundedness. -/
theorem inv_upd_current {cfg : AttrSetCfg} {cur : AttrId → ℚ} (hwf : WFPairs cfg)
    (hInv : PairInv cfg cur) (hRnd : RoundedCurs cfg cur) {a : AttrId} {v : ℚ}
    (hnotmax : ∀ p ∈ cfg.pairs, a ≠ p.2)
    (hval : ∀ m₀ : AttrId, (a, m₀) ∈ cfg.pairs →
      0 ≤ v ∧ v ≤ cur m₀ ∧ RoundToDecimals v cfg.DefaultRoundingDecimals = v) :
    PairInv cfg (updAttr cur a v) ∧ RoundedCurs cfg (updAttr cur a v) := by
  constructor
  · intro p hp
    have hp2 : p.2 ≠ a := fun h => hnotmax p hp h.symm
    rw [updAttr_other cur a v hp2]
    by_cases h1 : p.1 = a
    · have hmem : (a, p.2) ∈ cfg.pairs := by rw [← h1, Prod.mk.eta]; exact hp
      obtain ⟨h0, hle, _⟩ := hval p.2 hmem
      rw [h1, updAttr_same]
      exact ⟨h0, hle⟩
    · rw [updAttr_other cur a v h1]
      exact hInv p hp
  · intro p hp
    have hp2 : p.2 ≠ a := fun h => hnotmax p hp h.symm
    rw [updAttr_other cur a v hp2]
    by_cases h1 : p.1 = a
    · have hmem : (a, p.2) ∈ cfg.pairs := by rw [← h1, Prod.mk.eta]; exact hp
      obtain ⟨_, _, hr⟩ := hval p.2 hmem
      rw [h1, updAttr_same]
      exact ⟨hr, (hRnd p hp).2⟩
    · rw [updAttr_other cur a v h1]
      exact hRnd p hp

/-- Writing a capacity attribute `a` (paired with resource `c`) when the
subsequent authoritative re-clamp found the old resource value nearly
equal to the re-clamped one: the resource value is retained, and the
invariant survives because two distinct rounded values are never nearly
equal. -/
theorem inv_upd_max_nearly {cfg : AttrSetCfg} {cur : AttrId → ℚ} (hwf : WFPairs cfg)
    (hd7 : cfg.DefaultRoundingDecimals ≤ 7)
    (hInv : PairInv cfg cur) (hRnd : RoundedCurs cfg cur) {c a : AttrId}
    (hmem : (c, a) ∈ cfg.pairs) {v1 : ℚ}
    (hv1r : RoundToDecimals v1 cfg.DefaultRoundingDecimals = v1) (hv1n : 0 ≤ v1)
    (hnear : IsNearlyEqual (cur c)
      (RoundToDecimals (clampUE (cur c) 0 v1) cfg.DefaultRoundingDecimals) = true) :
    PairInv cfg (updAttr cur a v1) ∧ RoundedCurs cfg (updAttr cur a v1) := by
  have hca : c ≠ a := hwf.2.2 (c, a) hmem (c, a) hmem
  have hO0 : 0 ≤ cur c := (hInv _ hmem).1
  have hOle : cur c ≤ v1 := by
    by_contra hgt
    push_neg at hgt
    have hcl : clampUE (cur c) 0 v1 = v1 := by
      rw [clampUE, if_neg (not_lt.mpr hO0), if_pos hgt]
    rw [hcl, hv1r] at hnear
    rw [rounded_ne_not_nearlyEqual hd7 (hRnd _ hmem).1 hv1r (ne_of_gt hgt)] at hnear
    exact Bool.false_ne_true hnear
  constructor
  · intro p hp
    by_cases hpa : p = (c, a)
    · subst hpa
      rw [updAttr_other cur a v1 hca, updAttr_same]
      exact ⟨hO0, hOle⟩
    · obtain ⟨x, y⟩ := p
      have hx : x ≠ a := hwf.2.2 (x, y) hp (c, a) hmem
      have hy : y ≠ a := by
        intro he
        subst he
        exact hpa (by rw [WF_snd_inj hwf hp hmem])
      rw [updAttr_other cur a v1 hx, updAttr_other cur a v1 hy]
      exact hInv (x, y) hp
  · intro p hp
    by_cases hpa : p = (c, a)
    · subst hpa
      rw [updAttr_other cur a v1 hca, updAttr_same]
      exact ⟨(hRnd _ hmem).1, hv1r⟩
    · obtain ⟨x, y⟩ := p
      have hx : x ≠ a := hwf.2.2 (x, y) hp (c, a) hmem
      have hy : y ≠ a := by
        intro he
        subst he
        exact hpa (by rw [WF_snd_inj hwf hp hmem])
      rw [updAttr_other cur a v1 hx, updAttr_other cur a v1 hy]
      exact hRnd (x, y) hp

/-- Writing a capacity attribute `a` (paired with resource `c`) followed by
the authoritative write-back of a re-clamped resource value `v2 ∈ [0, v1]`
preserves the invariant and roundedness. -/
theorem inv_upd_max_writeback {cfg : AttrSetCfg} {cur : AttrId → ℚ} (hwf : WFPairs cfg)
    (hInv : PairInv cfg cur) (hRnd : RoundedCurs cfg cur) {c a : AttrId}
    (hmem : (c, a) ∈ cfg.pairs) {v1 v2 : ℚ}
    (hv1r : RoundToDecimals v1 cfg.DefaultRoundingDecimals = v1)
    (hv20 : 0 ≤ v2) (hv21 : v2 ≤ v1)
    (hv2r : RoundToDecimals v2 cfg.DefaultRoundingDecimals = v2) :
    PairInv cfg (updAttr (updAttr cur a v1) c v2)
      ∧ RoundedCurs cfg (updAttr (updAttr cur a v1) c v2) := by
  have hca : c ≠ a := hwf.2.2 (c, a) hmem (c, a) hmem
  have hac : a ≠ c := fun h => hca h.symm
  constructor
  · intro p hp
    by_cases hpa : p = (c, a)
    · subst hpa
      rw [updAttr_same, updAttr_other _ c v2 hac, updAttr_same]
      exact ⟨hv20, hv21⟩
    · obtain ⟨x, y⟩ := p
      have hxa : x ≠ a := hwf.2.2 (x, y) hp (c, a) hmem
      have hya : y ≠ a := by
        intro he
        subst he
        exact hpa (by rw [WF_snd_inj hwf hp hmem])
      have hxc : x ≠ c := by
        intro he
        subst he
        exact hpa (by rw [WF_fst_inj hwf hp hmem])
      have hyc : y ≠ c := fun h => (hwf.2.2 (c, a) hmem (x, y) hp) h.symm
      rw [updAttr_other _ c v2 hxc, updAttr_other cur a v1 hxa,
        updAttr_other _ c v2 hyc, updAttr_other cur a v1 hya]
      exact hInv (x, y) hp
  · intro p hp
    by_cases hpa : p = (c, a)
    · subst hpa
      rw [updAttr_same, updAttr_other _ c v2 hac, updAttr_same]
      exact ⟨hv2r, hv1r⟩
    · obtain ⟨x, y⟩ := p
      have hxa : x ≠ a := hwf.2.2 (x, y) hp (c, a) hmem
      have hya : y ≠ a := by
        intro he
        subst he
        exact hpa (by rw [WF_snd_inj hwf hp hmem])
      have hxc : x ≠ c := by
        intro he
        subst he
        exact hpa (by rw [WF_fst_inj hwf hp hmem])
      have hyc : y ≠ c := fun h => (hwf.2.2 (c, a) hmem (x, y) hp) h.symm
      rw [updAttr_other _ c v2 hxc, updAttr_other cur a v1 hxa,
        updAttr_other _ c v2 hyc, updAttr_other cur a v1 hya]
      exact hRnd (x, y) hp

/-! ## Shapes of the committed current map after one operation -/

theorem step_addMod_cur (cfg : AttrSetCfg) (st : GasState) (a : AttrId) (mq : ℚ) :
    (step cfg st (.addMod a mq)).1.cur
      = updAttr st.cur a (PreAttributeChange cfg st a (st.base a + (st.mods a + mq))) := by
  simp only [step, recomputeCurrent, updAttr_same]
  exact congrArg (updAttr st.cur a) (PreAttributeChange_cur_only cfg a _ rfl)

theorem step_removeMod_cur (cfg : AttrSetCfg) (st : GasState) (a : AttrId) (mq : ℚ) :
    (step cfg st (.removeMod a mq)).1.cur
      = updAttr st.cur a (PreAttributeChange cfg st a (st.base a + (st.mods a - mq))) := by
  simp only [step, recomputeCurrent, updAttr_same]
  exact congrArg (updAttr st.cur a) (PreAttributeChange_cur_only cfg a _ rfl)

/-- The state reached by `stepExec` just before `PostGameplayEffectExecute`:
base committed through the Before-base-write point, current recomputed
through the Before-current-write point. -/
def execMid (cfg : AttrSetCfg) (st : GasState) (a : AttrId) (raw : ℚ) : GasState :=
  let b := PreAttributeBaseChange cfg st a raw
  { base := updAttr st.base a b
    mods := st.mods
    cur := updAttr st.cur a (PreAttributeChange cfg st a (b + st.mods a)) }

theorem stepExec_state (cfg : AttrSetCfg) (st : GasState) (a : AttrId) (raw : ℚ) :
    (stepExec cfg st a raw).1 = (PostGameplayEffectExecute cfg (execMid cfg st a raw) a).1 := by
  simp only [stepExec, recomputeCurrent, execMid, updAttr_same]
  exact congrArg (fun v => (PostGameplayEffectExecute cfg
    { base := updAttr st.base a (PreAttributeBaseChange cfg st a raw), mods := st.mods,
      cur := updAttr st.cur a v } a).1)
    (PreAttributeChange_cur_only cfg a _ rfl)

theorem step_execAdd_state (cfg : AttrSetCfg) (st : GasState) (a : AttrId) (delta : ℚ) :
    (step cfg st (.execAdd a delta)).1
      = (PostGameplayEffectExecute cfg (execMid cfg st a (st.base a + delta)) a).1 := by
  rw [step]
  exact stepExec_state cfg st a _

theorem step_execOverride_state (cfg : AttrSetCfg) (st : GasState) (a : AttrId) (v : ℚ) :
    (step cfg st (.execOverride a v)).1
      = (PostGameplayEffectExecute cfg (execMid cfg st a v) a).1 := by
  rw [step]
  exact stepExec_state cfg st a _

theorem execMid_cur (cfg : AttrSetCfg) (st : GasState) (a : AttrId) (raw : ℚ) :
    (execMid cfg st a raw).cur = updAttr st.cur a (PreAttributeChange cfg st a
      (PreAttributeBaseChange cfg st a raw + st.mods a)) := rfl

/-- Case shape of `PostGameplayEffectExecute` on the state level. -/
theorem Post_shape (cfg : AttrSetCfg) (st : GasState) (a : AttrId) :
    (TryGetCurrentForMax cfg a = none ∧ (PostGameplayEffectExecute cfg st a).1 = st)
    ∨ ∃ c, TryGetCurrentForMax cfg a = some c
      ∧ ((IsNearlyEqual (st.cur c)
            (RoundToDecimals (clampUE (st.cur c) 0 (st.cur a)) (GetRoundingDecimals cfg c)) = true
            ∧ (PostGameplayEffectExecute cfg st a).1 = st)
        ∨ ∃ raw2, (PostGameplayEffectExecute cfg st a).1.cur
            = updAttr st.cur c (PreAttributeChange cfg st c raw2)) := by
  rw [PostGameplayEffectExecute]
  cases hmax : TryGetCurrentForMax cfg a with
  | none => exact Or.inl ⟨rfl, rfl⟩
  | some c =>
      refine Or.inr ⟨c, rfl, ?_⟩
      dsimp only
      by_cases hnear : IsNearlyEqual (st.cur c)
          (RoundToDecimals (clampUE (st.cur c) 0 (st.cur a)) (GetRoundingDecimals cfg c)) = true
      · rw [if_pos hnear]
        exact Or.inl ⟨hnear, rfl⟩
      · rw [if_neg hnear]
        refine Or.inr ⟨?_, ?_⟩
        · exact (updAttr st.base c (PreAttributeBaseChange cfg st c
            (RoundToDecimals (RoundToDecimals (clampUE (st.cur c) 0 (st.cur a))
              (GetRoundingDecimals cfg c)) (GetRoundingDecimals cfg c)))) c + st.mods c
        · simp only [SetCurrentNumeric, SetNumericAttributeBase, recomputeCurrent]
          exact congrArg (updAttr st.cur c) (PreAttributeChange_cur_only cfg c _ rfl)

/-- Bounds on the value committed by `PreAttributeChange` when the written
attribute is a registered resource. -/
theorem PreAttributeChange_bounds {cfg : AttrSetCfg} {st : GasState} {a m₀ : AttrId}
    (hwf : WFPairs cfg) (hmem : (a, m₀) ∈ cfg.pairs) (hM0 : 0 ≤ st.cur m₀)
    (hMr : RoundToDecimals (st.cur m₀) cfg.DefaultRoundingDecimals = st.cur m₀) (raw : ℚ) :
    0 ≤ PreAttributeChange cfg st a raw ∧ PreAttributeChange cfg st a raw ≤ st.cur m₀
    ∧ RoundToDecimals (PreAttributeChange cfg st a raw) cfg.DefaultRoundingDecimals
        = PreAttributeChange cfg st a raw := by
  rw [PreAttributeChange, TryGetMaxForCurrent_of_mem hwf hmem]
  dsimp only
  exact ⟨(clampRound_mem hM0 hMr).1, (clampRound_mem hM0 hMr).2, RoundToDecimals_idem _ _⟩

/-- Invariant preservation for an executed (Instant/Periodic) write to any
attribute, including the authoritative re-clamp that follows it. -/
theorem execPost_preserves (cfg : AttrSetCfg) (st : GasState) (a : AttrId) (raw : ℚ)
    (hwf : WFPairs cfg) (hd7 : cfg.DefaultRoundingDecimals ≤ 7)
    (hInv : PairInv cfg st.cur) (hRnd : RoundedCurs cfg st.cur)
    (hcaps : CapsNonneg cfg (PostGameplayEffectExecute cfg (execMid cfg st a raw) a).1.cur) :
    PairInv cfg (PostGameplayEffectExecute cfg (execMid cfg st a raw) a).1.cur
      ∧ RoundedCurs cfg (PostGameplayEffectExecute cfg (execMid cfg st a raw) a).1.cur := by
  rcases Post_shape cfg (execMid cfg st a raw) a with ⟨hnone, heq⟩ | ⟨c, hsome, hcase⟩
  · rw [heq, execMid_cur] at hcaps ⊢
    have hnotmax : ∀ p ∈ cfg.pairs, a ≠ p.2 := by
      intro p hp he
      have hmem : (p.1, a) ∈ cfg.pairs := by
        rw [he, Prod.mk.eta]
        exact hp
      have := TryGetCurrentForMax_of_mem hwf hmem
      rw [hnone] at this
      simp at this
    apply inv_upd_current hwf hInv hRnd hnotmax
    intro m₀ hmem
    have hM0 : 0 ≤ st.cur m₀ := le_trans (hInv _ hmem).1 (hInv _ hmem).2
    exact PreAttributeChange_bounds hwf hmem hM0 (hRnd _ hmem).2 _
  · have hmemca : (c, a) ∈ cfg.pairs := TryGetCurrentForMax_mem hsome
    have hca : c ≠ a := hwf.2.2 (c, a) hmemca (c, a) hmemca
    have hac : a ≠ c := fun h => hca h.symm
    have hnocur : TryGetMaxForCurrent cfg a = none :=
      TryGetMaxForCurrent_none (fun p hp => hwf.2.2 p hp (c, a) hmemca)
    have hmidcur : (execMid cfg st a raw).cur
        = updAttr st.cur a (PreAttributeChange cfg st a
            (PreAttributeBaseChange cfg st a raw + st.mods a)) := execMid_cur cfg st a raw
    have hv1r : RoundToDecimals (PreAttributeChange cfg st a
          (PreAttributeBaseChange cfg st a raw + st.mods a)) cfg.DefaultRoundingDecimals
        = PreAttributeChange cfg st a (PreAttributeBaseChange cfg st a raw + st.mods a) := by
      rw [PreAttributeChange, hnocur]
      exact RoundToDecimals_idem _ _
    have hmc : (execMid cfg st a raw).cur c = st.cur c := by
      rw [hmidcur]
      exact updAttr_other _ _ _ hca
    have hma : (execMid cfg st a raw).cur a
        = PreAttributeChange cfg st a (PreAttributeBaseChange cfg st a raw + st.mods a) := by
      rw [hmidcur]
      exact updAttr_same _ _ _
    rcases hcase with ⟨hnear, heq⟩ | ⟨raw2, hcur⟩
    · rw [heq, hmidcur] at hcaps ⊢
      rw [hmc, hma] at hnear
      have hv1n : 0 ≤ PreAttributeChange cfg st a
          (PreAttributeBaseChange cfg st a raw + st.mods a) := by
        have h0 := hcaps (c, a) hmemca
        rwa [updAttr_same] at h0
      exact inv_upd_max_nearly hwf hd7 hInv hRnd hmemca hv1r hv1n hnear
    · rw [hcur, hmidcur] at hcaps ⊢
      have hv1n : 0 ≤ PreAttributeChange cfg st a
          (PreAttributeBaseChange cfg st a raw + st.mods a) := by
        have h0 := hcaps (c, a) hmemca
        rwa [updAttr_other _ _ _ hac, updAttr_same] at h0
      have hv2eq : PreAttributeChange cfg (execMid cfg st a raw) c raw2
          = RoundToDecimals (clampUE raw2 0 (PreAttributeChange cfg st a
              (PreAttributeBaseChange cfg st a raw + st.mods a)))
              cfg.DefaultRoundingDecimals := by
        rw [PreAttributeChange, TryGetMaxForCurrent_of_mem hwf hmemca]
        dsimp only
        rw [hma]
        rfl
      obtain ⟨h20, h21⟩ := @clampRound_mem raw2 _ _ hv1n hv1r
      refine inv_upd_max_writeback hwf hInv hRnd hmemca hv1r ?_ ?_ ?_
      · rw [hv2eq]
        exact h20
      · rw [hv2eq]
        exact h21
      · rw [hv2eq]
        exact RoundToDecimals_idem _ _

/-- One-step invariant preservation over the clamp/round pipeline. -/
theorem step_preserves (cfg : AttrSetCfg) (st : GasState) (op : GasOp)
    (hwf : WFPairs cfg) (hd7 : cfg.DefaultRoundingDecimals ≤ 7)
    (hInv : PairInv cfg st.cur) (hRnd : RoundedCurs cfg st.cur) (hop : GoodOp cfg op)
    (hcaps : CapsNonneg cfg (step cfg st op).1.cur) :
    PairInv cfg (step cfg st op).1.cur ∧ RoundedCurs cfg (step cfg st op).1.cur := by
  cases op with
  | execAdd a delta =>
      rw [step_execAdd_state] at hcaps ⊢
      exact execPost_preserves cfg st a _ hwf hd7 hInv hRnd hcaps
  | execOverride a v =>
      rw [step_execOverride_state] at hcaps ⊢
      exact execPost_preserves cfg st a _ hwf hd7 hInv hRnd hcaps
  | addMod a mq =>
      rw [step_addMod_cur] at hcaps ⊢
      apply inv_upd_current hwf hInv hRnd hop
      intro m₀ hmem
      have hM0 : 0 ≤ st.cur m₀ := le_trans (hInv _ hmem).1 (hInv _ hmem).2
      exact PreAttributeChange_bounds hwf hmem hM0 (hRnd _ hmem).2 _
  | removeMod a mq =>
      rw [step_removeMod_cur] at hcaps ⊢
      apply inv_upd_current hwf hInv hRnd hop
      intro m₀ hmem
      have hM0 : 0 ≤ st.cur m₀ := le_trans (hInv _ hmem).1 (hInv _ hmem).2
      exact PreAttributeChange_bounds hwf hmem hM0 (hRnd _ hmem).2 _

instance (cfg : AttrSetCfg) (cur : AttrId → ℚ) : Decidable (PairInv cfg cur) :=
  inferInstanceAs (Decidable (∀ p ∈ cfg.pairs, 0 ≤ cur p.1 ∧ cur p.1 ≤ cur p.2))

instance (cfg : AttrSetCfg) (cur : AttrId → ℚ) : Decidable (RoundedCurs cfg cur) :=
  inferInstanceAs (Decidable (∀ p ∈ cfg.pairs,
    RoundToDecimals (cur p.1) cfg.DefaultRoundingDecimals = cur p.1
    ∧ RoundToDecimals (cur p.2) cfg.DefaultRoundingDecimals = cur p.2))

instance (cfg : AttrSetCfg) (cur : AttrId → ℚ) : Decidable (CapsNonneg cfg cur) :=
  inferInstanceAs (Decidable (∀ p ∈ cfg.pairs, 0 ≤ cur p.2))

instance (cfg : AttrSetCfg) : Decidable (WFPairs cfg) :=
  inferInstanceAs (Decidable ((cfg.pairs.map Prod.fst).Nodup
    ∧ (cfg.pairs.map Prod.snd).Nodup ∧ ∀ p ∈ cfg.pairs, ∀ q ∈ cfg.pairs, p.1 ≠ q.2))

theorem run_nil (cfg : AttrSetCfg) (st : GasState) : run cfg st [] = st := rfl

theorem run_cons (cfg : AttrSetCfg) (st : GasState) (op : GasOp) (l : List GasOp) :
    run cfg st (op :: l) = run cfg (step cfg st op).1 l := rfl

/-- Prefix-closed invariant preservation over a whole operation sequence. -/
theorem run_take_preserves (cfg : AttrSetCfg) :
    ∀ (ops : List GasOp) (st : GasState),
      WFPairs cfg → cfg.DefaultRoundingDecimals ≤ 7 →
      PairInv cfg st.cur → RoundedCurs cfg st.cur →
      (∀ op ∈ ops, GoodOp cfg op) →
      (∀ n : ℕ, CapsNonneg cfg (run cfg st (ops.take n)).cur) →
      ∀ n : ℕ, PairInv cfg (run cfg st (ops.take n)).cur
        ∧ RoundedCurs cfg (run cfg st (ops.take n)).cur := by
  intro ops
  induction ops with
  | nil =>
      intro st _ _ hInv hRnd _ _ n
      rw [List.take_nil, run_nil]
      exact ⟨hInv, hRnd⟩
  | cons op tl ih =>
      intro st hwf hd7 hInv hRnd hgood hcaps n
      cases n with
      | zero =>
          rw [List.take_zero, run_nil]
          exact ⟨hInv, hRnd⟩
      | succ k =>
          rw [List.take_succ_cons, run_cons]
          have hc1 : CapsNonneg cfg (step cfg st op).1.cur := by
            have h1 := hcaps 1
            rwa [List.take_succ_cons, List.take_zero, run_cons, run_nil] at h1
          have hstep := step_preserves cfg st op hwf hd7 hInv hRnd
            (hgood op (List.mem_cons_self op tl)) hc1
          exact ih (step cfg st op).1 hwf hd7 hstep.1 hstep.2
            (fun o ho => hgood o (List.mem_cons_of_mem op ho))
            (fun m => by
              have h2 := hcaps (m + 1)
              rwa [List.take_succ_cons, run_cons] at h2) k

/-- C1 (amended) — For attribute sets whose pair registry is well-formed
(as the game's: distinct resources, distinct capacities, no attribute in
both roles), whose rounding policy keeps at most 7 decimals, and starting
from a state satisfying the invariant with rounded pair values, the
invariant `0 ≤ current(resource) ≤ current(capacity)` holds after every
operation of any sequence of effect applications and removals, PROVIDED
(a) registered capacity attributes are mutated only by executed
(Instant/Periodic) effects — a Duration/Infinite modifier on a capacity
bypasses the authoritative re-clamp (see the counterexample) — and
(b) capacity currents stay nonnegative along the run. -/
theorem claim_C1_amended (cfg : AttrSetCfg) (st : GasState) (ops : List GasOp)
    (hwf : WFPairs cfg) (hd7 : cfg.DefaultRoundingDecimals ≤ 7)
    (hInv : PairInv cfg st.cur) (hRnd : RoundedCurs cfg st.cur)
    (hgood : ∀ op ∈ ops, GoodOp cfg op)
    (hcaps : ∀ n : ℕ, CapsNonneg cfg (run cfg st (ops.take n)).cur)
    (n : ℕ) : PairInv cfg (run cfg st (ops.take n)).cur :=
  (run_take_preserves cfg ops st hwf hd7 hInv hRnd hgood hcaps n).1

end GASCore

namespace GASCore

/-! ## Lemmas on the effect-actor model -/

theorem any_congr_mem {α : Type _} {l : List α} {f g : α → Bool}
    (h : ∀ x ∈ l, f x = g x) : l.any f = l.any g := by
  induction l with
  | nil => rfl
  | cons a tl ih =>
      rw [List.any_cons, List.any_cons, h a (List.mem_cons_self a tl),
        ih (fun x hx => h x (List.mem_cons_of_mem a hx))]

theorem isSome_map_snd {α β : Type _} (o : Option (α × β)) :
    (o.map Prod.snd).isSome = o.isSome := by
  cases o <;> rfl

theorem guard_fst {β : Type _} (id : Nat) (s : β) (a : Nat × β) :
    ((if a.1 == id then (a.1, s) else a) : Nat × β).1 = a.1 := by
  split <;> rfl

theorem find?_map_guard_isSome {β : Type _} (id : Nat) (s : β) (x : Nat) :
    ∀ l : List (Nat × β),
      ((l.map (fun p => if p.1 == id then (p.1, s) else p)).find?
          (fun p => p.1 == x)).isSome
        = (l.find? (fun p => p.1 == x)).isSome := by
  intro l
  induction l with
  | nil => rfl
  | cons a tl ih =>
      simp only [List.map_cons, List.find?_cons, guard_fst]
      cases ha : (a.1 == x) with
      | true => rfl
      | false => simpa using ih

theorem ascValid_updateASC (w : World) (id : Nat) (s : ASCState) (x : Nat) :
    ascValid (updateASC w id s) x = ascValid w x := by
  rw [ascValid, ascValid, lookupASC, lookupASC, updateASC]
  rw [isSome_map_snd, isSome_map_snd]
  exact find?_map_guard_isSome id s x w.ascs

theorem find?_map_guard_self {β : Type _} {id : Nat} {s : β} :
    ∀ {l : List (Nat × β)} {v : β},
      (l.find? (fun p => p.1 == id)).map Prod.snd = some v →
      ((l.map (fun p => if p.1 == id then (p.1, s) else p)).find?
          (fun p => p.1 == id)).map Prod.snd = some s := by
  intro l
  induction l with
  | nil => intro v h; simp at h
  | cons a tl ih =>
      intro v h
      simp only [List.find?_cons] at h
      simp only [List.map_cons, List.find?_cons, guard_fst]
      cases ha : (a.1 == id) with
      | true => simp [ha]
      | false =>
          rw [ha] at h
          exact ih h

theorem lookupASC_updateASC_self (w : World) (id : Nat) (s : ASCState)
    {asc0 : ASCState} (hl : lookupASC w id = some asc0) :
    lookupASC (updateASC w id s) id = some s := by
  rw [lookupASC] at hl
  rw [lookupASC, updateASC]
  exact find?_map_guard_self hl

theorem map_guard_id {β : Type _} (id : Nat) (s : β) :
    ∀ {l : List (Nat × β)}, (∀ p ∈ l, p.1 ≠ id) →
      l.map (fun p => if p.1 == id then (p.1, s) else p) = l := by
  intro l
  induction l with
  | nil => intro _; rfl
  | cons a tl ih =>
      intro h
      rw [List.map_cons, if_neg (by simpa using h a (List.mem_cons_self a tl)),
        ih (fun p hp => h p (List.mem_cons_of_mem a hp))]

theorem map_guard_self_eq {β : Type _} (id : Nat) :
    ∀ {l : List (Nat × β)} {asc0 : β}, (l.map Prod.fst).Nodup →
      (l.find? (fun p => p.1 == id)).map Prod.snd = some asc0 →
      l.map (fun p => if p.1 == id then (p.1, asc0) else p) = l := by
  intro l
  induction l with
  | nil => intro asc0 _ h; simp at h
  | cons a tl ih =>
      intro asc0 hk h
      rw [List.map_cons, List.nodup_cons] at hk
      simp only [List.find?_cons] at h
      rw [List.map_cons]
      cases ha : (a.1 == id) with
      | true =>
          rw [ha] at h
          have ha2 : a.2 = asc0 := by simpa using h
          have haid : a.1 = id := by simpa using ha
          have htl : ∀ p ∈ tl, p.1 ≠ id := by
            intro p hp he
            exact hk.1 (by rw [haid, ← he]; exact List.mem_map.mpr ⟨p, hp, rfl⟩)
          rw [if_pos rfl, map_guard_id id asc0 htl, ← ha2, Prod.mk.eta]
      | false =>
          rw [ha] at h
          rw [if_neg (by simp [ha]), ih hk.2 h]

theorem updateASC_self (w : World) (id : Nat) {asc0 : ASCState}
    (hk : (w.ascs.map Prod.fst).Nodup) (hl : lookupASC w id = some asc0) :
    updateASC w id asc0 = w := by
  rw [lookupASC] at hl
  rw [updateASC, map_guard_self_eq id hk hl]

theorem updateASC_updateASC (w : World) (id : Nat) (s1 s2 : ASCState) :
    updateASC (updateASC w id s1) id s2 = updateASC w id s2 := by
  rw [updateASC, updateASC, updateASC]
  simp only [List.map_map]
  have hfun : ((fun p : Nat × ASCState => if p.1 == id then (p.1, s2) else p)
        ∘ (fun p : Nat × ASCState => if p.1 == id then (p.1, s1) else p))
      = fun p : Nat × ASCState => if p.1 == id then (p.1, s2) else p := by
    funext p
    by_cases h : p.1 = id
    · simp [Function.comp, h]
    · simp [Function.comp, h]
  rw [hfun]

theorem find?_filter_ne {β : Type _} {h h' : Nat} (hne : h' ≠ h) :
    ∀ {l : List (Nat × β)},
      (l.filter (fun x => x.1 != h)).find? (fun e => e.1 == h')
        = l.find? (fun e => e.1 == h') := by
  intro l
  induction l with
  | nil => rfl
  | cons a tl ih =>
      by_cases hah : a.1 = h
      · have h1 : (a.1 != h) = false := by simp [hah]
        have h2 : (a.1 == h') = false := by simp [hah]; exact fun he => hne he.symm
        simp only [List.filter_cons, h1, Bool.false_eq_true, if_false,
          List.find?_cons, h2, ih]
      · have h1 : (a.1 != h) = true := by simp [hah]
        simp only [List.filter_cons, h1, if_true, List.find?_cons]
        cases hx : (a.1 == h') with
        | true => rfl
        | false => simpa using ih

theorem find?_map_keyguard {β : Type _} (g : Nat × β → β) {h h' : Nat} (hne : h' ≠ h) :
    ∀ {l : List (Nat × β)},
      ((l.map (fun x => if x.1 == h then (x.1, g x) else x)).find? (fun e => e.1 == h'))
        = l.find? (fun e => e.1 == h') := by
  intro l
  induction l with
  | nil => rfl
  | cons a tl ih =>
      have hkey : ((if a.1 == h then (a.1, g a) else a) : Nat × β).1 = a.1 := by
        split <;> rfl
      simp only [List.map_cons, List.find?_cons, hkey]
      cases hx : (a.1 == h') with
      | true =>
          have hah : (a.1 == h) = false := by
            have hxx : a.1 = h' := by simpa using hx
            simp [hxx, hne]
          simp [hah]
      | false => simpa using ih

theorem RemoveActive_find_other {s : ASCState} {h : Nat} {n : ℤ} {h' : Nat} (hne : h' ≠ h) :
    (RemoveActiveGameplayEffect s h n).1.active.find? (fun e => e.1 == h')
      = s.active.find? (fun e => e.1 == h') := by
  rw [RemoveActiveGameplayEffect]
  cases hf : s.active.find? (fun e => e.1 == h) with
  | none => rfl
  | some e =>
      dsimp only
      split
      · exact find?_filter_ne hne
      · exact find?_map_keyguard _ hne

theorem RemoveActive_count_congr {s1 s2 : ASCState} {h : Nat} {n : ℤ}
    (he : s1.active.find? (fun e => e.1 == h) = s2.active.find? (fun e => e.1 == h)) :
    (RemoveActiveGameplayEffect s1 h n).2 = (RemoveActiveGameplayEffect s2 h n).2 := by
  unfold RemoveActiveGameplayEffect
  rw [he]
  cases s2.active.find? (fun e => e.1 == h) with
  | none => rfl
  | some e =>
      dsimp only
      split <;> rfl

theorem GetActive_RemoveActive_false {s : ASCState} {h : Nat} {n : ℤ} {x : Nat}
    (hx : GetActiveGameplayEffect s x = false) :
    GetActiveGameplayEffect (RemoveActiveGameplayEffect s h n).1 x = false := by
  by_cases he : x = h
  · subst he
    rw [GetActiveGameplayEffect] at hx
    rw [RemoveActiveGameplayEffect]
    cases hf : s.active.find? (fun e => e.1 == x) with
    | none => rwa [GetActiveGameplayEffect]
    | some e => rw [hf] at hx; simp at hx
  · rw [GetActiveGameplayEffect, RemoveActive_find_other he]
    rwa [GetActiveGameplayEffect] at hx

theorem removalLoopASC_nil (tracked : List (Nat × FGASCoreTrackedEffect)) (s : ASCState)
    (fl : Bool × Bool) : removalLoopASC tracked [] s fl = (s, fl) := rfl

theorem removalLoopASC_cons (tracked : List (Nat × FGASCoreTrackedEffect)) (h : Nat)
    (tl : List Nat) (s : ASCState) (fl : Bool × Bool) :
    removalLoopASC tracked (h :: tl) s fl
      = tl.foldl (removalStepASC tracked) (removalStepASC tracked (s, fl) h) := rfl

/-- The removal loop of `RemoveGameplayEffectFromTarget` only rewrites the
resolved target ASC: it is the ASC-level loop `removalLoopASC` committed
through `updateASC`. -/
theorem removal_loop_eq (tracked : List (Nat × FGASCoreTrackedEffect)) (A : Nat)
    (w : World) {asc0 : ASCState} (hl : lookupASC w A = some asc0) :
    ∀ (hs : List Nat) (s : ASCState) (fl : Bool × Bool),
      (∀ h ∈ hs, ∀ t : FGASCoreTrackedEffect,
          (tracked.find? (fun p => p.1 == h)).map Prod.snd = some t → t.ASC = A) →
      hs.foldl (removalStep tracked A) (updateASC w A s, fl)
        = (updateASC w A (removalLoopASC tracked hs s fl).1,
            (removalLoopASC tracked hs s fl).2) := by
  intro hs
  induction hs with
  | nil => intro s fl _; rfl
  | cons h tl ih =>
      intro s fl hmem
      rw [List.foldl_cons]
      cases hf : (tracked.find? (fun p => p.1 == h)).map Prod.snd with
      | none =>
          have hstep : removalStep tracked A (updateASC w A s, fl) h = (updateASC w A s, fl) := by
            rw [removalStep, hf]
          have hstep2 : removalStepASC tracked (s, fl) h = (s, fl) := by
            rw [removalStepASC, hf]
          rw [hstep, removalLoopASC_cons, hstep2]
          exact ih s fl (fun x hx => hmem x (List.mem_cons_of_mem h hx))
      | some t =>
          have hA : t.ASC = A := hmem h (List.mem_cons_self h tl) t hf
          have hvalid : ascValid (updateASC w A s) t.ASC = true := by
            rw [hA, ascValid_updateASC, ascValid, hl]
            rfl
          have hlook2 : lookupASC (updateASC w A s) A = some s :=
            lookupASC_updateASC_self w A s hl
          have hstep : removalStep tracked A (updateASC w A s, fl) h
              = (updateASC w A (RemoveActiveGameplayEffect s h t.StacksToRemove).1,
                  fl.1 || ((RemoveActiveGameplayEffect s h t.StacksToRemove).2 != 0),
                  fl.2 || (((RemoveActiveGameplayEffect s h t.StacksToRemove).2 != 0)
                    && t.bDestroyOnRemoval)) := by
            rw [removalStep, hf]
            try dsimp only
            rw [hvalid]
            try simp only [Bool.not_true, Bool.false_eq_true, if_false]
            rw [hlook2]
            try dsimp only
            rw [updateASC_updateASC]
          have hstep2 : removalStepASC tracked (s, fl) h
              = ((RemoveActiveGameplayEffect s h t.StacksToRemove).1,
                  fl.1 || ((RemoveActiveGameplayEffect s h t.StacksToRemove).2 != 0),
                  fl.2 || (((RemoveActiveGameplayEffect s h t.StacksToRemove).2 != 0)
                    && t.bDestroyOnRemoval)) := by
            rw [removalStepASC, hf]
          rw [hstep, removalLoopASC_cons, hstep2]
          exact ih _ _ (fun x hx => hmem x (List.mem_cons_of_mem h hx))

theorem removedNonzero_congr {tracked : List (Nat × FGASCoreTrackedEffect)}
    {s : ASCState} {h : Nat} {n : ℤ} {h' : Nat} (hne : h' ≠ h) :
    removedNonzero tracked (RemoveActiveGameplayEffect s h n).1 h'
      = removedNonzero tracked s h' := by
  rw [removedNonzero, removedNonzero]
  cases hf : (tracked.find? (fun p => p.1 == h')).map Prod.snd with
  | none => rfl
  | some t =>
      dsimp only
      rw [RemoveActive_count_congr (RemoveActive_find_other hne)]

theorem removedDestroy_congr {tracked : List (Nat × FGASCoreTrackedEffect)}
    {s : ASCState} {h : Nat} {n : ℤ} {h' : Nat} (hne : h' ≠ h) :
    removedDestroy tracked (RemoveActiveGameplayEffect s h n).1 h'
      = removedDestroy tracked s h' := by
  rw [removedDestroy, removedDestroy]
  cases hf : (tracked.find? (fun p => p.1 == h')).map Prod.snd with
  | none => rfl
  | some t =>
      dsimp only
      rw [RemoveActive_count_congr (RemoveActive_find_other hne)]

/-- With distinct handles, the loop's two flags are the `any` of the
per-handle outcomes measured against the ASC state at loop entry. -/
theorem removalLoopASC_flags (tracked : List (Nat × FGASCoreTrackedEffect)) :
    ∀ (hs : List Nat), hs.Nodup → ∀ (s : ASCState) (fl : Bool × Bool),
      (removalLoopASC tracked hs s fl).2.1 = (fl.1 || hs.any (removedNonzero tracked s))
      ∧ (removalLoopASC tracked hs s fl).2.2 = (fl.2 || hs.any (removedDestroy tracked s)) := by
  intro hs
  induction hs with
  | nil => intro _ s fl; simp [removalLoopASC_nil]
  | cons h tl ih =>
      intro hnd s fl
      rw [List.nodup_cons] at hnd
      rw [removalLoopASC_cons]
      cases hf : (tracked.find? (fun p => p.1 == h)).map Prod.snd with
      | none =>
          have hstep2 : removalStepASC tracked (s, fl) h = (s, fl) := by
            rw [removalStepASC, hf]
          have hz : removedNonzero tracked s h = false := by rw [removedNonzero, hf]
          have hz2 : removedDestroy tracked s h = false := by rw [removedDestroy, hf]
          rw [hstep2]
          have := ih hnd.2 s fl
          rw [List.any_cons, List.any_cons, hz, hz2, Bool.false_or, Bool.false_or]
          exact this
      | some t =>
          have hstep2 : removalStepASC tracked (s, fl) h
              = ((RemoveActiveGameplayEffect s h t.StacksToRemove).1,
                  fl.1 || ((RemoveActiveGameplayEffect s h t.StacksToRemove).2 != 0),
                  fl.2 || (((RemoveActiveGameplayEffect s h t.StacksToRemove).2 != 0)
                    && t.bDestroyOnRemoval)) := by
            rw [removalStepASC, hf]
          have hz : removedNonzero tracked s h
              = ((RemoveActiveGameplayEffect s h t.StacksToRemove).2 != 0) := by
            rw [removedNonzero, hf]
          have hz2 : removedDestroy tracked s h
              = (((RemoveActiveGameplayEffect s h t.StacksToRemove).2 != 0)
                  && t.bDestroyOnRemoval) := by
            rw [removedDestroy, hf]
          rw [hstep2]
          have hrec := ih hnd.2 (RemoveActiveGameplayEffect s h t.StacksToRemove).1
            (fl.1 || ((RemoveActiveGameplayEffect s h t.StacksToRemove).2 != 0),
              fl.2 || (((RemoveActiveGameplayEffect s h t.StacksToRemove).2 != 0)
                && t.bDestroyOnRemoval))
          have hcv : tl.any (removedNonzero tracked
              (RemoveActiveGameplayEffect s h t.StacksToRemove).1)
              = tl.any (removedNonzero tracked s) :=
            any_congr_mem (fun x hx =>
              removedNonzero_congr (fun he => hnd.1 (he ▸ hx)))
          have hcv2 : tl.any (removedDestroy tracked
              (RemoveActiveGameplayEffect s h t.StacksToRemove).1)
              = tl.any (removedDestroy tracked s) :=
            any_congr_mem (fun x hx =>
              removedDestroy_congr (fun he => hnd.1 (he ▸ hx)))
          rw [removalLoopASC] at hrec
          constructor
          · rw [hrec.1, hcv, List.any_cons, hz, Bool.or_assoc]
          · rw [hrec.2, hcv2, List.any_cons, hz2, Bool.or_assoc]

/-- A removal loop over entirely stale handles changes nothing. -/
theorem removalLoopASC_stale (tracked : List (Nat × FGASCoreTrackedEffect)) :
    ∀ (hs : List Nat) (s : ASCState) (fl : Bool × Bool),
      (∀ h ∈ hs, GetActiveGameplayEffect s h = false) →
      removalLoopASC tracked hs s fl = (s, fl) := by
  intro hs
  induction hs with
  | nil => intro s fl _; rfl
  | cons h tl ih =>
      intro s fl hstale
      rw [removalLoopASC_cons]
      have hx := hstale h (List.mem_cons_self h tl)
      rw [GetActiveGameplayEffect] at hx
      cases hf : (tracked.find? (fun p => p.1 == h)).map Prod.snd with
      | none =>
          have hstep2 : removalStepASC tracked (s, fl) h = (s, fl) := by
            rw [removalStepASC, hf]
          rw [hstep2]
          exact ih s fl (fun x hxm => hstale x (List.mem_cons_of_mem h hxm))
      | some t =>
          have hnone : s.active.find? (fun e => e.1 == h) = none := by
            cases hf2 : s.active.find? (fun e => e.1 == h) with
            | none => rfl
            | some e => rw [hf2] at hx; simp at hx
          have hrm : RemoveActiveGameplayEffect s h t.StacksToRemove = (s, 0) := by
            rw [RemoveActiveGameplayEffect, hnone]
          have hstep2 : removalStepASC tracked (s, fl) h = (s, fl) := by
            rw [removalStepASC, hf]
            dsimp only
            rw [hrm]
            simp
          rw [hstep2]
          exact ih s fl (fun x hxm => hstale x (List.mem_cons_of_mem h hxm))

/-- Staleness is preserved by the removal loop. -/
theorem removalLoopASC_GetActive_false (tracked : List (Nat × FGASCoreTrackedEffect)) :
    ∀ (hs : List Nat) (s : ASCState) (fl : Bool × Bool) {x : Nat},
      GetActiveGameplayEffect s x = false →
      GetActiveGameplayEffect (removalLoopASC tracked hs s fl).1 x = false := by
  intro hs
  induction hs with
  | nil => intro s fl x hx; exact hx
  | cons h tl ih =>
      intro s fl x hx
      rw [removalLoopASC_cons]
      cases hf : (tracked.find? (fun p => p.1 == h)).map Prod.snd with
      | none =>
          have hstep2 : removalStepASC tracked (s, fl) h = (s, fl) := by
            rw [removalStepASC, hf]
          rw [hstep2]
          exact ih s fl hx
      | some t =>
          have hstep2 : removalStepASC tracked (s, fl) h
              = ((RemoveActiveGameplayEffect s h t.StacksToRemove).1,
                  fl.1 || ((RemoveActiveGameplayEffect s h t.StacksToRemove).2 != 0),
                  fl.2 || (((RemoveActiveGameplayEffect s h t.StacksToRemove).2 != 0)
                    && t.bDestroyOnRemoval)) := by
            rw [removalStepASC, hf]
          rw [hstep2]
          exact ih _ _ (GetActive_RemoveActive_false hx)

theorem cleanupStep_subset {w1 : World} {A : Nat} {m : List (Nat × FGASCoreTrackedEffect)}
    {h' : Nat} {p : Nat × FGASCoreTrackedEffect} (hp : p ∈ cleanupStep w1 A m h') : p ∈ m := by
  rw [cleanupStep] at hp
  cases hf : (m.find? (fun q => q.1 == h')).map Prod.snd with
  | none =>
      rw [hf] at hp
      exact List.mem_of_mem_filter hp
  | some t =>
      rw [hf] at hp
      dsimp only at hp
      split at hp
      · exact List.mem_of_mem_filter hp
      · exact hp

theorem cleanup_fold_subset {w1 : World} {A : Nat} :
    ∀ {hs : List Nat} {m : List (Nat × FGASCoreTrackedEffect)}
      {p : Nat × FGASCoreTrackedEffect},
      p ∈ hs.foldl (cleanupStep w1 A) m → p ∈ m := by
  intro hs
  induction hs with
  | nil => intro m p hp; exact hp
  | cons h tl ih =>
      intro m p hp
      rw [List.foldl_cons] at hp
      exact cleanupStep_subset (ih hp)

theorem cleanupStep_removes {w1 : World} {A : Nat} {m : List (Nat × FGASCoreTrackedEffect)}
    {h0 : Nat} {t0 : FGASCoreTrackedEffect}
    (hval : ∀ t1 : FGASCoreTrackedEffect, (h0, t1) ∈ m → t1 = t0)
    (hA : ascValid w1 t0.ASC = true)
    (hG : GetActiveGameplayEffect ((lookupASC w1 A).getD ⟨[], []⟩) h0 = false) :
    ∀ t1 : FGASCoreTrackedEffect, (h0, t1) ∉ cleanupStep w1 A m h0 := by
  intro t1 hmem
  rw [cleanupStep] at hmem
  cases hf0 : m.find? (fun q => q.1 == h0) with
  | none =>
      rw [hf0] at hmem
      have := (List.mem_filter.mp hmem).2
      simp at this
  | some p0 =>
      have hkey : p0.1 = h0 := by simpa using List.find?_some hf0
      have hp0 : p0 ∈ m := List.mem_of_find?_eq_some hf0
      have hv : p0.2 = t0 := hval p0.2 (by rw [← hkey, Prod.mk.eta]; exact hp0)
      rw [hf0] at hmem
      simp only [Option.map_some'] at hmem
      rw [hv, hA, hG] at hmem
      simp only [Bool.not_true, Bool.not_false, Bool.false_eq_true, if_false,
        Bool.true_and, Bool.false_or, Bool.or_true, if_true] at hmem
      have := (List.mem_filter.mp hmem).2
      simp at this

theorem cleanup_fold_purges {w1 : World} {A : Nat} {h0 : Nat} {t0 : FGASCoreTrackedEffect}
    (hA : ascValid w1 t0.ASC = true)
    (hG : GetActiveGameplayEffect ((lookupASC w1 A).getD ⟨[], []⟩) h0 = false) :
    ∀ (hs : List Nat) (m : List (Nat × FGASCoreTrackedEffect)),
      (∀ t1 : FGASCoreTrackedEffect, (h0, t1) ∈ m → t1 = t0) → h0 ∈ hs →
      ∀ t1 : FGASCoreTrackedEffect, (h0, t1) ∉ hs.foldl (cleanupStep w1 A) m := by
  intro hs
  induction hs with
  | nil => intro m _ hin; simp at hin
  | cons h tl ih =>
      intro m hval hin t1 hmem
      rw [List.foldl_cons] at hmem
      by_cases he : h = h0
      · subst he
        exact cleanupStep_removes hval hA hG t1 (cleanup_fold_subset hmem)
      · have hin2 : h0 ∈ tl := by
          rcases List.mem_cons.mp hin with h1 | h1
          · exact absurd h1.symm he
          · exact h1
        exact ih (cleanupStep w1 A m h)
          (fun t2 ht2 => hval t2 (cleanupStep_subset ht2)) hin2 t1 hmem

theorem nodup_val_unique {β : Type _} {l : List (Nat × β)}
    (hk : (l.map Prod.fst).Nodup) {h0 : Nat} {t0 t1 : β}
    (h1 : (h0, t0) ∈ l) (h2 : (h0, t1) ∈ l) : t1 = t0 := by
  have e1 := find?_fst_of_nodup hk h1
  have e2 := find?_fst_of_nodup hk h2
  rw [e1] at e2
  simpa using (Option.some_inj.mp e2).symm

theorem matchesForRemoval_decomp {w : World} {A : Nat} {cfgClass : Option Nat}
    {t : FGASCoreTrackedEffect} (h : matchesForRemoval w A cfgClass t = true) :
    ascValid w t.ASC = true ∧ t.ASC = A ∧ t.EffectClass = cfgClass := by
  rw [matchesForRemoval] at h
  simp only [Bool.and_eq_true, beq_iff_eq] at h
  exact ⟨h.1.1, h.1.2, h.2⟩

theorem matched_nodup {w : World} {A : Nat} {cfgClass : Option Nat}
    {tracked : List (Nat × FGASCoreTrackedEffect)}
    (hak : (tracked.map Prod.fst).Nodup) :
    ((tracked.filter (fun p => matchesForRemoval w A cfgClass p.2)).map Prod.fst).Nodup :=
  List.Nodup.sublist (List.Sublist.map Prod.fst (List.filter_sublist tracked)) hak

theorem matched_find {w : World} {A : Nat} {cfgClass : Option Nat}
    {tracked : List (Nat × FGASCoreTrackedEffect)}
    (hak : (tracked.map Prod.fst).Nodup) :
    ∀ h ∈ (tracked.filter (fun p => matchesForRemoval w A cfgClass p.2)).map Prod.fst,
      ∃ t : FGASCoreTrackedEffect,
        (tracked.find? (fun p => p.1 == h)).map Prod.snd = some t
        ∧ matchesForRemoval w A cfgClass t = true := by
  intro h hh
  obtain ⟨p, hp, he⟩ := List.mem_map.mp hh
  obtain ⟨hpm, hpc⟩ := List.mem_filter.mp hp
  refine ⟨p.2, ?_, hpc⟩
  have hfind : tracked.find? (fun q => q.1 == h) = some (h, p.2) := by
    apply find?_fst_of_nodup hak
    rw [← he, Prod.mk.eta]
    exact hpm
  rw [hfind]
  rfl

theorem removal_loop_full (tracked : List (Nat × FGASCoreTrackedEffect)) (A : Nat)
    (w : World) {asc0 : ASCState} (hl : lookupASC w A = some asc0)
    (hwk : (w.ascs.map Prod.fst).Nodup) (hs : List Nat)
    (hside : ∀ h ∈ hs, ∀ t : FGASCoreTrackedEffect,
        (tracked.find? (fun p => p.1 == h)).map Prod.snd = some t → t.ASC = A) :
    hs.foldl (removalStep tracked A) (w, false, false)
      = (updateASC w A (removalLoopASC tracked hs asc0 (false, false)).1,
          (removalLoopASC tracked hs asc0 (false, false)).2) := by
  have h0 : ((w, false, false) : World × Bool × Bool)
      = (updateASC w A asc0, false, false) := by
    rw [updateASC_self w A hwk hl]
  rw [h0]
  exact removal_loop_eq tracked A w hl hs asc0 (false, false) hside

/-- Full characterisation of `RemoveGameplayEffectFromTarget` once the
target ASC resolves: the world is the target ASC rewritten by the
ASC-level removal loop over the matched handles, the registry is the
cleanup fold, and destruction is signalled exactly when the loop saw both
a stack-removing handle and a stack-removing handle carrying the destroy
intent. -/
theorem Remove_shape (env : Env) (w : World) (actor : ActorState) (t : Option Nat)
    (cfg : FGASCoreEffectConfig) (A : Nat) {asc0 : ASCState}
    (hasc : GetAbilitySystemComponent env w t = some A)
    (hl : lookupASC w A = some asc0)
    (hwk : (w.ascs.map Prod.fst).Nodup)
    (hak : (actor.ActiveGameplayEffects.map Prod.fst).Nodup) :
    RemoveGameplayEffectFromTarget env w actor t cfg
      = (updateASC w A (removalLoopASC actor.ActiveGameplayEffects
            ((actor.ActiveGameplayEffects.filter
              (fun p => matchesForRemoval w A cfg.EffectClass p.2)).map Prod.fst)
            asc0 (false, false)).1,
          { GameplayEffects := actor.GameplayEffects,
            ActiveGameplayEffects :=
              ((actor.ActiveGameplayEffects.filter
                (fun p => matchesForRemoval w A cfg.EffectClass p.2)).map Prod.fst).foldl
                (cleanupStep (updateASC w A (removalLoopASC actor.ActiveGameplayEffects
                  ((actor.ActiveGameplayEffects.filter
                    (fun p => matchesForRemoval w A cfg.EffectClass p.2)).map Prod.fst)
                  asc0 (false, false)).1) A)
                actor.ActiveGameplayEffects,
            destroyed :=
              if (removalLoopASC actor.ActiveGameplayEffects
                    ((actor.ActiveGameplayEffects.filter
                      (fun p => matchesForRemoval w A cfg.EffectClass p.2)).map Prod.fst)
                    asc0 (false, false)).2.1
                  && (removalLoopASC actor.ActiveGameplayEffects
                    ((actor.ActiveGameplayEffects.filter
                      (fun p => matchesForRemoval w A cfg.EffectClass p.2)).map Prod.fst)
                    asc0 (false, false)).2.2
              then true else actor.destroyed }) := by
  have hside : ∀ h ∈ (actor.ActiveGameplayEffects.filter
      (fun p => matchesForRemoval w A cfg.EffectClass p.2)).map Prod.fst,
      ∀ tt : FGASCoreTrackedEffect,
        (actor.ActiveGameplayEffects.find? (fun p => p.1 == h)).map Prod.snd = some tt →
        tt.ASC = A := by
    intro h hh tt ht
    obtain ⟨t', hft, hmt⟩ := matched_find hak h hh
    rw [hft] at ht
    cases Option.some_inj.mp ht
    exact (matchesForRemoval_decomp hmt).2.1
  rw [RemoveGameplayEffectFromTarget, hasc]
  dsimp only
  rw [removal_loop_full actor.ActiveGameplayEffects A w hl hwk _ hside]
  dsimp only
  by_cases hcond : (removalLoopASC actor.ActiveGameplayEffects
      ((actor.ActiveGameplayEffects.filter
        (fun p => matchesForRemoval w A cfg.EffectClass p.2)).map Prod.fst)
      asc0 (false, false)).2.1
    && (removalLoopASC actor.ActiveGameplayEffects
      ((actor.ActiveGameplayEffects.filter
        (fun p => matchesForRemoval w A cfg.EffectClass p.2)).map Prod.fst)
      asc0 (false, false)).2.2
  · rw [if_pos hcond, if_pos hcond]
  · rw [if_neg hcond, if_neg hcond]

theorem any_map_local {α β : Type _} (f : α → β) (l : List α) (p : β → Bool) :
    (l.map f).any p = l.any (fun a => p (f a)) := by
  induction l with
  | nil => rfl
  | cons a tl ih => rw [List.map_cons, List.any_cons, List.any_cons, ih]

theorem any_absorb_left {α : Type _} {l : List α} {f g : α → Bool}
    (h : ∀ x ∈ l, g x = true → f x = true) : (l.any f && l.any g) = l.any g := by
  cases hg : l.any g with
  | false => rw [Bool.and_false]
  | true =>
      obtain ⟨x, hx, hgx⟩ := List.any_eq_true.mp hg
      have hf : l.any f = true := List.any_eq_true.mpr ⟨x, hx, h x hx hgx⟩
      rw [hf, Bool.true_and]

/-- C3 — For a tracked handle whose backing modifier is already gone
(expired or already purged on the target ASC), a removal request never
touches the target's attribute or active-effect state, raises no error
(the embedding is a total function), removes nothing twice, and silently
deletes the stale entry from the registry. If every matched handle is
stale, the whole call leaves the world untouched and does not signal
destruction. -/
theorem claim_C3 (env : Env) (w : World) (actor : ActorState) (t : Option Nat)
    (cfg : FGASCoreEffectConfig) (A : Nat) (asc0 : ASCState)
    (h0 : Nat) (t0 : FGASCoreTrackedEffect)
    (hasc : GetAbilitySystemComponent env w t = some A)
    (hl : lookupASC w A = some asc0)
    (hwk : (w.ascs.map Prod.fst).Nodup)
    (hak : (actor.ActiveGameplayEffects.map Prod.fst).Nodup)
    (hmem : (h0, t0) ∈ actor.ActiveGameplayEffects)
    (hmatch : matchesForRemoval w A cfg.EffectClass t0 = true)
    (hstale : GetActiveGameplayEffect asc0 h0 = false) :
    (∀ t1 : FGASCoreTrackedEffect,
        (h0, t1) ∉ (RemoveGameplayEffectFromTarget env w actor t cfg).2.ActiveGameplayEffects)
    ∧ ((∀ p ∈ actor.ActiveGameplayEffects,
          matchesForRemoval w A cfg.EffectClass p.2 = true →
          GetActiveGameplayEffect asc0 p.1 = false) →
        (RemoveGameplayEffectFromTarget env w actor t cfg).1 = w
        ∧ (RemoveGameplayEffectFromTarget env w actor t cfg).2.destroyed = actor.destroyed) := by
  rw [Remove_shape env w actor t cfg A hasc hl hwk hak]
  have hdec := matchesForRemoval_decomp hmatch
  constructor
  · intro t1
    dsimp only
    apply @cleanup_fold_purges _ _ _ t0
    · rw [ascValid_updateASC]
      exact hdec.1
    · rw [lookupASC_updateASC_self w A _ hl]
      exact removalLoopASC_GetActive_false actor.ActiveGameplayEffects _ asc0 (false, false)
        hstale
    · intro t2 ht2
      exact nodup_val_unique hak hmem ht2
    · exact List.mem_map.mpr ⟨(h0, t0), List.mem_filter.mpr ⟨hmem, hmatch⟩, rfl⟩
  · intro hall
    have hstaleAll : ∀ h ∈ (actor.ActiveGameplayEffects.filter
        (fun p => matchesForRemoval w A cfg.EffectClass p.2)).map Prod.fst,
        GetActiveGameplayEffect asc0 h = false := by
      intro h hh
      obtain ⟨p, hp, he⟩ := List.mem_map.mp hh
      obtain ⟨hpm, hpc⟩ := List.mem_filter.mp hp
      rw [← he]
      exact hall p hpm hpc
    rw [removalLoopASC_stale actor.ActiveGameplayEffects _ asc0 (false, false) hstaleAll]
    dsimp only
    rw [updateASC_self w A hwk hl]
    exact ⟨rfl, rfl⟩

/-- C4 — During one removal batch, the trigger actor's destruction is
signalled (once, by the single `Destroy()` call after the loop) exactly
when some matched handle's tracking entry both carries
`bDestroyOnRemoval = true` and actually removed stacks; if no handle
removed stacks, destruction is not signalled. -/
theorem claim_C4 (env : Env) (w : World) (actor : ActorState) (t : Option Nat)
    (cfg : FGASCoreEffectConfig) (A : Nat) (asc0 : ASCState)
    (hasc : GetAbilitySystemComponent env w t = some A)
    (hl : lookupASC w A = some asc0)
    (hwk : (w.ascs.map Prod.fst).Nodup)
    (hak : (actor.ActiveGameplayEffects.map Prod.fst).Nodup) :
    (RemoveGameplayEffectFromTarget env w actor t cfg).2.destroyed
      = (actor.destroyed
          || actor.ActiveGameplayEffects.any (fun p =>
              matchesForRemoval w A cfg.EffectClass p.2
              && ((RemoveActiveGameplayEffect asc0 p.1 p.2.StacksToRemove).2 != 0)
              && p.2.bDestroyOnRemoval)) := by
  rw [Remove_shape env w actor t cfg A hasc hl hwk hak]
  dsimp only
  have hnd := @matched_nodup w A cfg.EffectClass actor.ActiveGameplayEffects hak
  have hfl := removalLoopASC_flags actor.ActiveGameplayEffects _ hnd asc0 (false, false)
  rw [hfl.1, hfl.2, Bool.false_or, Bool.false_or]
  have himp : ∀ h ∈ (actor.ActiveGameplayEffects.filter
      (fun p => matchesForRemoval w A cfg.EffectClass p.2)).map Prod.fst,
      removedDestroy actor.ActiveGameplayEffects asc0 h = true →
      removedNonzero actor.ActiveGameplayEffects asc0 h = true := by
    intro h _ hd
    rw [removedDestroy] at hd
    rw [removedNonzero]
    cases hf : (actor.ActiveGameplayEffects.find? (fun p => p.1 == h)).map Prod.snd with
    | none => rw [hf] at hd; simp at hd
    | some tt =>
        rw [hf] at hd
        dsimp only at hd ⊢
        simp only [Bool.and_eq_true] at hd
        exact hd.1
  rw [any_absorb_left himp]
  have hconv : ((actor.ActiveGameplayEffects.filter
        (fun p => matchesForRemoval w A cfg.EffectClass p.2)).map Prod.fst).any
        (removedDestroy actor.ActiveGameplayEffects asc0)
      = actor.ActiveGameplayEffects.any (fun p =>
          matchesForRemoval w A cfg.EffectClass p.2
          && ((RemoveActiveGameplayEffect asc0 p.1 p.2.StacksToRemove).2 != 0)
          && p.2.bDestroyOnRemoval) := by
    rw [any_map_local, List.any_filter]
    apply any_congr_mem
    intro p hp
    cases hm : matchesForRemoval w A cfg.EffectClass p.2 with
    | false => rw [Bool.false_and, Bool.false_and, Bool.false_and]
    | true =>
        rw [Bool.true_and, Bool.true_and]
        have hfind : actor.ActiveGameplayEffects.find? (fun q => q.1 == p.1) = some p := by
          have := @find?_fst_of_nodup _ _ hak p.1 p.2 (by rw [Prod.mk.eta]; exact hp)
          rwa [Prod.mk.eta] at this
        rw [removedDestroy, hfind]
        rfl
  rw [hconv]
  cases hany : actor.ActiveGameplayEffects.any (fun p =>
      matchesForRemoval w A cfg.EffectClass p.2
      && ((RemoveActiveGameplayEffect asc0 p.1 p.2.StacksToRemove).2 != 0)
      && p.2.bDestroyOnRemoval) with
  | true => rw [if_pos rfl, Bool.or_true]
  | false => rw [if_neg (by simp), Bool.or_false]

/-- A resolved ASC is alive: `GetAbilitySystemComponent` only returns ids
that pass the weak-pointer validity check. -/
theorem GetASC_valid {env : Env} {w : World} {t : Option Nat} {A : Nat}
    (h : GetAbilitySystemComponent env w t = some A) : ascValid w A = true := by
  rw [GetAbilitySystemComponent.eq_def] at h
  cases t with
  | none => exact Option.noConfusion h
  | some a =>
      dsimp only at h
      cases hE : env.actorToASC a with
      | none => rw [hE] at h; exact Option.noConfusion h
      | some id =>
          rw [hE] at h
          dsimp only at h
          cases hv : ascValid w id with
          | false =>
              rw [hv, if_neg Bool.false_ne_true] at h
              exact Option.noConfusion h
          | true =>
              rw [hv, if_pos rfl] at h
              injection h with h2
              rw [← h2]
              exact hv

/-- A successfully built outgoing spec carries exactly the requested
class and level. -/
theorem MakeOutgoingSpec_some {env : Env} {w : World} {A cid : Nat} {lvl : ℚ} {s : SpecHandle}
    (h : MakeOutgoingSpec env w A cid lvl = some s) : s = ⟨cid, lvl⟩ := by
  rw [MakeOutgoingSpec] at h
  cases hl0 : lookupASC w A with
  | none => rw [hl0] at h; exact Option.noConfusion h
  | some asc =>
      rw [hl0] at h
      dsimp only at h
      by_cases hneg : lvl < 0
      · rw [if_pos hneg] at h
        exact Option.noConfusion h
      · rw [if_neg hneg] at h
        cases hall : (env.classDefs cid).magnitudes.all
            (fun m => (asc.attrs.find? (fun p => p.1 == m.1)).isSome) with
        | true =>
            rw [hall, if_pos rfl] at h
            exact (Option.some.inj h).symm
        | false =>
            rw [hall, if_neg Bool.false_ne_true] at h
            exact Option.noConfusion h

/-- C5 — If the configured level is negative, or the target lacks an
attribute referenced by one of the effect class's magnitudes, spec
construction fails and the apply call is a silent no-op: no spec handle is
produced, and the world (so every attribute) and the trigger actor (its
registry and destruction flag) are returned unchanged.  The embedding is
a total function, so the failure raises no error. -/
theorem claim_C5 (env : Env) (w : World) (actor : ActorState) (t : Option Nat)
    (cfg : FGASCoreEffectConfig) (A cid : Nat) (asc0 : ASCState)
    (hasc : GetAbilitySystemComponent env w t = some A)
    (hcid : cfg.EffectClass = some cid)
    (hl : lookupASC w A = some asc0)
    (hfail : cfg.ActorLevel < 0
      ∨ ∃ m ∈ (env.classDefs cid).magnitudes,
          asc0.attrs.find? (fun p => p.1 == m.1) = none) :
    MakeOutgoingSpec env w A cid cfg.ActorLevel = none
    ∧ ApplyGameplayEffectToTarget env w actor t cfg = (w, actor) := by
  have hspec : MakeOutgoingSpec env w A cid cfg.ActorLevel = none := by
    rw [MakeOutgoingSpec, hl]
    dsimp only
    by_cases hneg : cfg.ActorLevel < 0
    · rw [if_pos hneg]
    · rw [if_neg hneg]
      cases hfail with
      | inl hbad => exact absurd hbad hneg
      | inr hbad =>
          obtain ⟨m, hm, hnone⟩ := hbad
          have hall : (env.classDefs cid).magnitudes.all
              (fun m => (asc0.attrs.find? (fun p => p.1 == m.1)).isSome) = false := by
            cases hA : (env.classDefs cid).magnitudes.all
                (fun m => (asc0.attrs.find? (fun p => p.1 == m.1)).isSome) with
            | false => rfl
            | true =>
                simp only [List.all_eq_true] at hA
                have h2 := hA m hm
                rw [hnone] at h2
                exact absurd h2 (by simp)
          rw [hall, if_neg Bool.false_ne_true]
  refine ⟨hspec, ?_⟩
  rw [ApplyGameplayEffectToTarget, hasc]
  dsimp only
  rw [hcid]
  dsimp only
  rw [hspec]

/-- Per-row application against an unresolvable target is the identity. -/
theorem Apply_noTarget (env : Env) (w : World) (actor : ActorState) (t : Option Nat)
    (cfg : FGASCoreEffectConfig) (h : GetAbilitySystemComponent env w t = none) :
    ApplyGameplayEffectToTarget env w actor t cfg = (w, actor) := by
  rw [ApplyGameplayEffectToTarget, h]

/-- Per-row removal against an unresolvable target is the identity. -/
theorem Remove_noTarget (env : Env) (w : World) (actor : ActorState) (t : Option Nat)
    (cfg : FGASCoreEffectConfig) (h : GetAbilitySystemComponent env w t = none) :
    RemoveGameplayEffectFromTarget env w actor t cfg = (w, actor) := by
  rw [RemoveGameplayEffectFromTarget, h]

/-- A fold whose step fixes the start value never leaves it. -/
theorem foldl_fixed {α β : Type _} (f : β → α → β) (init : β) (hf : ∀ x, f init x = init) :
    ∀ l : List α, l.foldl f init = init := by
  intro l
  induction l with
  | nil => rfl
  | cons hd tl ih => rw [List.foldl_cons, hf, ih]

/-- Batch application against an unresolvable target is the identity. -/
theorem ApplyAll_noTarget (env : Env) (w : World) (actor : ActorState) (t : Option Nat)
    (policy : ApplicationPolicy) (h : GetAbilitySystemComponent env w t = none) :
    ApplyAllGameplayEffects env w actor t policy = (w, actor) := by
  rw [ApplyAllGameplayEffects]
  apply foldl_fixed
  intro cfg
  dsimp only
  cases hg : (cfg.EffectClass.isSome && cfg.ApplicationPolicy == policy) with
  | true => rw [if_pos rfl]; exact Apply_noTarget env w actor t cfg h
  | false => rw [if_neg Bool.false_ne_true]

/-- Batch removal against an unresolvable target is the identity. -/
theorem RemoveAll_noTarget (env : Env) (w : World) (actor : ActorState) (t : Option Nat)
    (policy : RemovalPolicy) (h : GetAbilitySystemComponent env w t = none) :
    RemoveAllGameplayEffects env w actor t policy = (w, actor) := by
  rw [RemoveAllGameplayEffects]
  apply foldl_fixed
  intro cfg
  dsimp only
  cases hg : (cfg.EffectClass.isSome && cfg.RemovalPolicy == policy) with
  | true => rw [if_pos rfl]; exact Remove_noTarget env w actor t cfg h
  | false => rw [if_neg Bool.false_ne_true]

/-- C9 — When the trigger target is null, or does not resolve to a living
ability-system component, both overlap handlers are complete no-ops: no
effect is applied or removed, no handle is created, and the world and the
trigger actor's tracking registry are unchanged. -/
theorem claim_C9 (env : Env) (w : World) (actor : ActorState) (t : Option Nat)
    (hasc : GetAbilitySystemComponent env w t = none) :
    OnOverlap env w actor t = (w, actor) ∧ EndOverlap env w actor t = (w, actor) := by
  cases t with
  | none => exact ⟨rfl, rfl⟩
  | some a =>
      constructor
      · show RemoveAllGameplayEffects env
            (ApplyAllGameplayEffects env w actor (some a) .ApplyOnOverlap).1
            (ApplyAllGameplayEffects env w actor (some a) .ApplyOnOverlap).2
            (some a) .RemoveOnOverlap = (w, actor)
        rw [ApplyAll_noTarget env w actor (some a) _ hasc]
        exact RemoveAll_noTarget env w actor (some a) _ hasc
      · show RemoveAllGameplayEffects env
            (ApplyAllGameplayEffects env w actor (some a) .ApplyEndOverlap).1
            (ApplyAllGameplayEffects env w actor (some a) .ApplyEndOverlap).2
            (some a) .RemoveOnEndOverlap = (w, actor)
        rw [ApplyAll_noTarget env w actor (some a) _ hasc]
        exact RemoveAll_noTarget env w actor (some a) _ hasc

/-- Folding a guarded step equals folding the bare step over the filtered
list: exactly the matching rows are processed, in authored order. -/
theorem foldl_guard_filter {α β : Type _} (p : α → Bool) (f : β → α → β) :
    ∀ (l : List α) (init : β),
      l.foldl (fun acc x => if p x then f acc x else acc) init
        = (l.filter p).foldl f init := by
  intro l
  induction l with
  | nil => intro init; rfl
  | cons hd tl ih =>
      intro init
      rw [List.foldl_cons, List.filter_cons]
      cases hp : p hd with
      | true =>
          rw [if_pos rfl, if_pos rfl, List.foldl_cons]
          exact ih (f init hd)
      | false =>
          rw [if_neg Bool.false_ne_true, if_neg Bool.false_ne_true]
          exact ih init

/-- Per-row application leaves the authored rows untouched (it only ever
updates the tracked map and the destruction flag). -/
theorem Apply_rows (env : Env) (w : World) (actor : ActorState) (t : Option Nat)
    (cfg : FGASCoreEffectConfig) :
    (ApplyGameplayEffectToTarget env w actor t cfg).2.GameplayEffects
      = actor.GameplayEffects := by
  rw [ApplyGameplayEffectToTarget]
  cases GetAbilitySystemComponent env w t with
  | none => rfl
  | some A =>
      dsimp only
      cases cfg.EffectClass with
      | none => rfl
      | some cid =>
          dsimp only
          cases MakeOutgoingSpec env w A cid cfg.ActorLevel with
          | none => rfl
          | some spec =>
              dsimp only
              cases (ApplyGameplayEffectSpecToSelf env w A spec).2 with
              | none => cases cfg.bDestroyOnEffectApplication <;> rfl
              | some hh =>
                  cases (cfg.RemovalPolicy != RemovalPolicy.DoNotRemove
                      && IsNonInstant env (some cid)) <;>
                    cases cfg.bDestroyOnEffectApplication <;> rfl

/-- Row preservation lifts through a left fold. -/
theorem foldl_rows {α : Type _} (f : World × ActorState → α → World × ActorState)
    (hf : ∀ acc x, (f acc x).2.GameplayEffects = acc.2.GameplayEffects) :
    ∀ (l : List α) (init : World × ActorState),
      (l.foldl f init).2.GameplayEffects = init.2.GameplayEffects := by
  intro l
  induction l with
  | nil => intro init; rfl
  | cons hd tl ih =>
      intro init
      rw [List.foldl_cons, ih (f init hd), hf]

/-- The apply phase leaves the authored rows untouched. -/
theorem ApplyAll_rows (env : Env) (w : World) (actor : ActorState) (t : Option Nat)
    (policy : ApplicationPolicy) :
    (ApplyAllGameplayEffects env w actor t policy).2.GameplayEffects
      = actor.GameplayEffects := by
  rw [ApplyAllGameplayEffects]
  refine foldl_rows _ ?_ actor.GameplayEffects (w, actor)
  intro acc cfg
  dsimp only
  cases hg : (cfg.EffectClass.isSome && cfg.ApplicationPolicy == policy) with
  | true => rw [if_pos rfl]; exact Apply_rows env acc.1 acc.2 t cfg
  | false => rw [if_neg Bool.false_ne_true]

/-- `ApplyAllGameplayEffects` is the authored-order fold of per-row
application over exactly the rows with a set class and the matching
application policy. -/
theorem ApplyAll_filter (env : Env) (w : World) (actor : ActorState) (t : Option Nat)
    (policy : ApplicationPolicy) :
    ApplyAllGameplayEffects env w actor t policy
      = (actor.GameplayEffects.filter
          (fun cfg => cfg.EffectClass.isSome && cfg.ApplicationPolicy == policy)).foldl
          (fun acc cfg => ApplyGameplayEffectToTarget env acc.1 acc.2 t cfg) (w, actor) := by
  rw [ApplyAllGameplayEffects]
  exact foldl_guard_filter
    (fun cfg => cfg.EffectClass.isSome && cfg.ApplicationPolicy == policy)
    (fun acc cfg => ApplyGameplayEffectToTarget env acc.1 acc.2 t cfg)
    actor.GameplayEffects (w, actor)

/-- `RemoveAllGameplayEffects` is the authored-order fold of per-row
removal over exactly the rows with a set class and the matching removal
policy. -/
theorem RemoveAll_filter (env : Env) (w : World) (actor : ActorState) (t : Option Nat)
    (policy : RemovalPolicy) :
    RemoveAllGameplayEffects env w actor t policy
      = (actor.GameplayEffects.filter
          (fun cfg => cfg.EffectClass.isSome && cfg.RemovalPolicy == policy)).foldl
          (fun acc cfg => RemoveGameplayEffectFromTarget env acc.1 acc.2 t cfg) (w, actor) := by
  rw [RemoveAllGameplayEffects]
  exact foldl_guard_filter
    (fun cfg => cfg.EffectClass.isSome && cfg.RemovalPolicy == policy)
    (fun acc cfg => RemoveGameplayEffectFromTarget env acc.1 acc.2 t cfg)
    actor.GameplayEffects (w, actor)

/-- C6 — Trigger policy matrix: on an enter event the handler first
applies, in authored order, exactly the rows whose application policy is
apply-on-overlap, and then removes, in authored order, exactly the rows
of the ORIGINAL configuration whose removal policy is remove-on-overlap;
an exit event does the same with the end-overlap policies.  The
apply-before-remove ordering is fixed by the code.  (Rows with a null
class are skipped by both phases.) -/
theorem claim_C6 (env : Env) (w : World) (actor : ActorState) (a : Nat) :
    (OnOverlap env w actor (some a)
      = (actor.GameplayEffects.filter
          (fun cfg => cfg.EffectClass.isSome && cfg.RemovalPolicy == .RemoveOnOverlap)).foldl
          (fun acc cfg => RemoveGameplayEffectFromTarget env acc.1 acc.2 (some a) cfg)
          (ApplyAllGameplayEffects env w actor (some a) .ApplyOnOverlap)
      ∧ ApplyAllGameplayEffects env w actor (some a) .ApplyOnOverlap
        = (actor.GameplayEffects.filter
            (fun cfg => cfg.EffectClass.isSome && cfg.ApplicationPolicy == .ApplyOnOverlap)).foldl
            (fun acc cfg => ApplyGameplayEffectToTarget env acc.1 acc.2 (some a) cfg) (w, actor))
    ∧ (EndOverlap env w actor (some a)
      = (actor.GameplayEffects.filter
          (fun cfg => cfg.EffectClass.isSome && cfg.RemovalPolicy == .RemoveOnEndOverlap)).foldl
          (fun acc cfg => RemoveGameplayEffectFromTarget env acc.1 acc.2 (some a) cfg)
          (ApplyAllGameplayEffects env w actor (some a) .ApplyEndOverlap)
      ∧ ApplyAllGameplayEffects env w actor (some a) .ApplyEndOverlap
        = (actor.GameplayEffects.filter
            (fun cfg => cfg.EffectClass.isSome && cfg.ApplicationPolicy == .ApplyEndOverlap)).foldl
            (fun acc cfg => ApplyGameplayEffectToTarget env acc.1 acc.2 (some a) cfg) (w, actor)) := by
  constructor
  · constructor
    · show RemoveAllGameplayEffects env
          (ApplyAllGameplayEffects env w actor (some a) .ApplyOnOverlap).1
          (ApplyAllGameplayEffects env w actor (some a) .ApplyOnOverlap).2
          (some a) .RemoveOnOverlap = _
      rw [RemoveAll_filter, ApplyAll_rows, Prod.mk.eta]
    · exact ApplyAll_filter env w actor (some a) .ApplyOnOverlap
  · constructor
    · show RemoveAllGameplayEffects env
          (ApplyAllGameplayEffects env w actor (some a) .ApplyEndOverlap).1
          (ApplyAllGameplayEffects env w actor (some a) .ApplyEndOverlap).2
          (some a) .RemoveOnEndOverlap = _
      rw [RemoveAll_filter, ApplyAll_rows, Prod.mk.eta]
    · exact ApplyAll_filter env w actor (some a) .ApplyEndOverlap

/-- Appending a pair under a fresh key to an association list makes it
the lookup result. -/
theorem find?_append_fresh {β : Type _} (q : Nat × β → Bool) :
    ∀ (l : List (Nat × β)) (x : Nat × β), l.find? q = none → q x = true →
      (l ++ [x]).find? q = some x := by
  intro l
  induction l with
  | nil =>
      intro x _ hx
      rw [List.nil_append, List.find?_cons, hx]
  | cons hd tl ih =>
      intro x hn hx
      rw [List.find?_cons] at hn
      cases hq : q hd with
      | true =>
          rw [hq] at hn
          dsimp only at hn
          exact Option.noConfusion hn
      | false =>
          rw [hq] at hn
          dsimp only at hn
          rw [List.cons_append, List.find?_cons, hq]
          exact ih x hn hx

/-- Overwriting the value stored under an existing key makes the new pair
the lookup result. -/
theorem find?_overwrite {β : Type _} (h : Nat) (t : β) :
    ∀ l : List (Nat × β), (l.find? (fun p => p.1 == h)).isSome = true →
      (l.map (fun p => if p.1 == h then (h, t) else p)).find? (fun p => p.1 == h)
        = some (h, t) := by
  intro l
  induction l with
  | nil => intro hs; exact absurd hs (by simp)
  | cons hd tl ih =>
      intro hs
      rw [List.find?_cons] at hs
      rw [List.map_cons, List.find?_cons]
      cases hq : (hd.1 == h) with
      | true =>
          rw [if_pos rfl]
          dsimp only
          rw [beq_self_eq_true]
      | false =>
          rw [hq] at hs
          dsimp only at hs
          rw [if_neg Bool.false_ne_true]
          rw [hq]
          exact ih hs

/-- TMap-Add semantics of the tracked map: after `trackAdd l h t`,
looking the handle up finds exactly `(h, t)` — whether the key was fresh
or overwritten. -/
theorem trackAdd_find (l : List (Nat × FGASCoreTrackedEffect)) (h : Nat)
    (t : FGASCoreTrackedEffect) :
    (trackAdd l h t).find? (fun p => p.1 == h) = some (h, t) := by
  rw [trackAdd]
  cases hf : (l.find? (fun p => p.1 == h)).isSome with
  | true =>
      rw [if_pos rfl]
      exact find?_overwrite h t l hf
  | false =>
      rw [if_neg Bool.false_ne_true]
      have hn : l.find? (fun p => p.1 == h) = none := by
        cases hq : l.find? (fun p => p.1 == h) with
        | none => rfl
        | some x => rw [hq] at hf; exact absurd hf (by simp)
      exact find?_append_fresh _ l (h, t) hn
        (show ((h, t).1 == h) = true from beq_self_eq_true h)

/-- C10 — (a) At application time of a tracked (non-instant, removable)
row, the registry entry recorded under the fresh handle normalises every
configured `StacksToRemove ≤ 0` (not only −1) to −1, and records the
configured value otherwise.  (b) A removal call reads only the row's
class: any two rows with the same class behave identically, so the stacks
requested per handle are the ones recorded at application time, never the
row's stacks value at the moment of removal. -/
theorem claim_C10 (env : Env) (w : World) (actor : ActorState) (t : Option Nat)
    (cfg : FGASCoreEffectConfig) (A cid : Nat)
    (hasc : GetAbilitySystemComponent env w t = some A)
    (hcid : cfg.EffectClass = some cid)
    (hspec : (MakeOutgoingSpec env w A cid cfg.ActorLevel).isSome = true)
    (hni : IsNonInstant env (some cid) = true)
    (hrp : (cfg.RemovalPolicy != RemovalPolicy.DoNotRemove) = true) :
    ((ApplyGameplayEffectToTarget env w actor t cfg).2.ActiveGameplayEffects.find?
        (fun p => p.1 == w.nextHandle)).map (fun p => p.2.StacksToRemove)
      = some (if cfg.StacksToRemove ≤ 0 then -1 else cfg.StacksToRemove)
    ∧ ∀ (w1 : World) (actor1 : ActorState) (t1 : Option Nat)
        (cfg1 : FGASCoreEffectConfig), cfg1.EffectClass = cfg.EffectClass →
        RemoveGameplayEffectFromTarget env w1 actor1 t1 cfg1
          = RemoveGameplayEffectFromTarget env w1 actor1 t1 cfg := by
  constructor
  · obtain ⟨s, hs⟩ := Option.isSome_iff_exists.mp hspec
    have hsv : s = ⟨cid, cfg.ActorLevel⟩ := MakeOutgoingSpec_some hs
    subst hsv
    have hvalid := GetASC_valid hasc
    rw [ascValid] at hvalid
    obtain ⟨asc, hl0⟩ := Option.isSome_iff_exists.mp hvalid
    have hinst : (GetDurationPolicyOf env (some cid) == DurationType.Instant) = false := by
      cases hD : GetDurationPolicyOf env (some cid) with
      | Instant => rw [IsNonInstant, hD] at hni; exact absurd hni (by decide)
      | HasDuration => decide
      | Infinite => decide
    have hr2 : (ApplyGameplayEffectSpecToSelf env w A ⟨cid, cfg.ActorLevel⟩).2
        = some w.nextHandle := by
      rw [ApplyGameplayEffectSpecToSelf, hl0]
      dsimp only
      rw [hinst, if_neg Bool.false_ne_true]
    have hguard : (cfg.RemovalPolicy != RemovalPolicy.DoNotRemove
        && IsNonInstant env (some cid)) = true := by
      rw [hrp, hni]
      rfl
    rw [ApplyGameplayEffectToTarget, hasc]
    dsimp only
    rw [hcid]
    dsimp only
    rw [hs]
    dsimp only
    rw [hr2]
    dsimp only
    rw [hguard, if_pos rfl]
    dsimp only
    cases cfg.bDestroyOnEffectApplication with
    | true =>
        rw [if_pos rfl]
        dsimp only
        rw [trackAdd_find]
        rfl
    | false =>
        rw [if_neg Bool.false_ne_true]
        dsimp only
        rw [trackAdd_find]
        rfl
  · intro w1 actor1 t1 cfg1 hcc
    simp only [RemoveGameplayEffectFromTarget, hcc]

end GASCore

section ConcreteRuns

namespace GASCore

attribute [local semireducible] Rat.add Rat.sub Rat.mul Rat.inv

/-- C1 counterexample — with the game's Health(0)↔MaxHealth(1) pair
registered, integer rounding, and an initial state `Health = 90,
MaxHealth = 100` satisfying the invariant, the single operation "apply an
Infinite effect with a −60 modifier on MaxHealth" leaves
`current(Health) = 90 > 40 = current(MaxHealth)`: the claimed invariant
does not hold after every operation of every sequence. -/
theorem claim_C1_counterexample :
    PairInv cfgHM (stHM 90 100).cur
    ∧ RoundedCurs cfgHM (stHM 90 100).cur
    ∧ (run cfgHM (stHM 90 100) [.addMod 1 (-60)]).cur 1 = 40
    ∧ (run cfgHM (stHM 90 100) [.addMod 1 (-60)]).cur 0 = 90
    ∧ ¬ PairInv cfgHM (run cfgHM (stHM 90 100) [.addMod 1 (-60)]).cur := by
  refine ⟨by decide, by decide, by decide, by decide, by decide⟩

/-- Witness for the amended C1 at a concrete run: an Instant +20 write to
Health from `Health = 90, MaxHealth = 100`. -/
theorem claim_C1_witness :
    PairInv cfgHM (run cfgHM (stHM 90 100) ([GasOp.execAdd 0 20].take 1)).cur :=
  claim_C1_amended cfgHM (stHM 90 100) [GasOp.execAdd 0 20]
    (by decide) (by decide) (by decide) (by decide)
    (by
      intro op hop
      simp only [List.mem_singleton] at hop
      subst hop
      exact trivial)
    (by
      intro n
      cases n with
      | zero => decide
      | succ k =>
          rw [List.take_succ_cons, List.take_nil]
          decide)
    1

/-- C2 (amended) — When an executed effect sets the capacity, the paired
resource is re-clamped and written back (with its change notification)
exactly when the re-clamped value is not nearly equal (tolerance `1.e-8`)
to the old one. In the spec's scenario (resource 90, capacity 100 → 50)
the resource becomes 50 and its notification fires; but when the resource
is already within the new range (e.g. 40), the write-back is skipped and
no notification fires for the resource. -/
theorem claim_C2_amended :
    (step cfgHM (stHM 90 100) (.execOverride 1 50)).1.cur 0 = 50
    ∧ (step cfgHM (stHM 90 100) (.execOverride 1 50)).2 = [(1, 50), (0, 50)]
    ∧ (step cfgHM (stHM 40 100) (.execOverride 1 50)).1.cur 0 = 40
    ∧ (step cfgHM (stHM 40 100) (.execOverride 1 50)).2 = [(1, 50)]
    ∧ ∀ (cfg : AttrSetCfg) (st : GasState) (a c : AttrId),
        TryGetCurrentForMax cfg a = some c →
        ((PostGameplayEffectExecute cfg st a).2 ≠ [] ↔
          IsNearlyEqual (st.cur c)
            (RoundToDecimals (clampUE (st.cur c) 0 (st.cur a))
              (GetRoundingDecimals cfg c)) = false) := by
  refine ⟨by decide, by decide, by decide, by decide, ?_⟩
  intro cfg st a c hsome
  rw [PostGameplayEffectExecute, hsome]
  dsimp only
  by_cases h : IsNearlyEqual (st.cur c)
      (RoundToDecimals (clampUE (st.cur c) 0 (st.cur a)) (GetRoundingDecimals cfg c)) = true
  · rw [if_pos h]
    simp [h]
  · rw [if_neg h]
    simp only [SetCurrentNumeric, SetNumericAttributeBase]
    constructor
    · intro _
      exact Bool.not_eq_true _ |>.mp h
    · intro _
      simp [recomputeCurrent]

/-- C2 counterexample — resource already at 40 ≤ 50 before an executed
capacity write 100 → 50: the re-clamp finds the value unchanged, skips the
write-back, and NO change notification fires for the resource, contrary to
the claim that one fires even when numerically a no-op. -/
theorem claim_C2_counterexample :
    (stHM 40 100).cur 0 ≤ 50
    ∧ (step cfgHM (stHM 40 100) (.execOverride 1 50)).1.cur 1 = 50
    ∧ (step cfgHM (stHM 40 100) (.execOverride 1 50)).1.cur 0 ≤ 50
    ∧ (step cfgHM (stHM 40 100) (.execOverride 1 50)).2.filter (fun p => p.1 == 0) = [] := by
  refine ⟨by decide, by decide, by decide, by decide⟩

/-- Witness for the general part of the amended C2. -/
theorem claim_C2_witness :
    (PostGameplayEffectExecute cfgHM (stHM 40 50) 1).2 ≠ [] ↔
      IsNearlyEqual ((stHM 40 50).cur 0)
        (RoundToDecimals (clampUE ((stHM 40 50).cur 0) 0 ((stHM 40 50).cur 1))
          (GetRoundingDecimals cfgHM 0)) = false :=
  claim_C2_amended.2.2.2.2 cfgHM (stHM 40 50) 1 0 (by decide)

/-- Witness for C7 at Health = 50 against MaxHealth = 100. -/
theorem claim_C7_witness :
    PreAttributeChange cfgHM (stHM 90 100) 0 50 = 50
    ∧ PreAttributeChange cfgHM (stHM 90 100) 0 (PreAttributeChange cfgHM (stHM 90 100) 0 50)
      = PreAttributeChange cfgHM (stHM 90 100) 0 50 :=
  claim_C7 cfgHM (stHM 90 100) 0 1 50 (by decide) (by decide) (by decide) (by decide)

/-- Witness for C8: integer rounding of `5/2` is the integer `3`, i.e. the
tie is broken away from zero. -/
theorem claim_C8_witness :
    (∃ k : ℤ, RoundToDecimals (5/2) 0 = (k : ℚ))
    ∧ |RoundToDecimals (5/2) 0 * 10 ^ (0 : ℤ).toNat| = |(5/2 : ℚ) * 10 ^ (0 : ℤ).toNat| + 1/2 :=
  ⟨(claim_C8 (5/2) 0).2.1 (by decide),
   (claim_C8 (5/2) 0).1.2 (by decide)⟩

/-- Witness for C3: removing `row1` on the trigger actor that tracks the
stale handle 5 (whose backing modifier is gone on ASC 7) silently purges
the entry and leaves the world and the destruction flag untouched. -/
theorem claim_C3_witness :
    (5, (⟨7, some 1, -1, true⟩ : FGASCoreTrackedEffect))
        ∉ (RemoveGameplayEffectFromTarget env0 w0 actorStale (some 5)
            row1).2.ActiveGameplayEffects
    ∧ (RemoveGameplayEffectFromTarget env0 w0 actorStale (some 5) row1).1 = w0
    ∧ (RemoveGameplayEffectFromTarget env0 w0 actorStale (some 5) row1).2.destroyed
        = actorStale.destroyed := by
  have h := claim_C3 env0 w0 actorStale (some 5) row1 7 ⟨[(0, 90), (1, 100)], []⟩ 5
    ⟨7, some 1, -1, true⟩ (by decide) (by decide) (by decide) (by decide) (by decide)
    (by decide) (by decide)
  exact ⟨h.1 ⟨7, some 1, -1, true⟩, (h.2 (by decide)).1, (h.2 (by decide)).2⟩

/-- Witness for C4: in the world where handle 5 still backs one stack of
class 1 on ASC 7, removing `row1` signals destruction exactly as the
batch-level disjunction predicts. -/
theorem claim_C4_witness :
    (RemoveGameplayEffectFromTarget env0 wAct actorStale (some 5) row1).2.destroyed
      = (actorStale.destroyed
          || actorStale.ActiveGameplayEffects.any (fun p =>
              matchesForRemoval wAct 7 row1.EffectClass p.2
              && ((RemoveActiveGameplayEffect ⟨[(0, 90), (1, 100)], [(5, 1, 1)]⟩ p.1
                    p.2.StacksToRemove).2 != 0)
              && p.2.bDestroyOnRemoval)) :=
  claim_C4 env0 wAct actorStale (some 5) row1 7 ⟨[(0, 90), (1, 100)], [(5, 1, 1)]⟩
    (by decide) (by decide) (by decide) (by decide)

/-- Witness for C5: class 3 references magnitude attribute 9, which ASC 7
does not declare, so spec construction fails and applying `row3` is a
silent no-op. -/
theorem claim_C5_witness :
    MakeOutgoingSpec env0 w0 7 3 row3.ActorLevel = none
    ∧ ApplyGameplayEffectToTarget env0 w0 actor0 (some 5) row3 = (w0, actor0) :=
  claim_C5 env0 w0 actor0 (some 5) row3 7 3 ⟨[(0, 90), (1, 100)], []⟩
    (by decide) (by decide) (by decide)
    (Or.inr ⟨(9, 1), by decide, by decide⟩)

/-- Witness for C9: actor 6 resolves to no ability-system component, so
both overlap handlers are no-ops. -/
theorem claim_C9_witness :
    OnOverlap env0 w0 actor0 (some 6) = (w0, actor0)
    ∧ EndOverlap env0 w0 actor0 (some 6) = (w0, actor0) :=
  claim_C9 env0 w0 actor0 (some 6) (by decide)

/-- Witness for C10: applying `row1` (authored `StacksToRemove = 0`)
records −1 under the fresh handle, and removal behaves identically for a
row that shares the class but differs in every other field. -/
theorem claim_C10_witness :
    ((ApplyGameplayEffectToTarget env0 w0 actor0 (some 5) row1).2.ActiveGameplayEffects.find?
        (fun p => p.1 == w0.nextHandle)).map (fun p => p.2.StacksToRemove)
      = some (if row1.StacksToRemove ≤ 0 then -1 else row1.StacksToRemove)
    ∧ RemoveGameplayEffectFromTarget env0 wAct actorStale (some 5)
        ⟨some 1, .DoNotApply, .RemoveOnEndOverlap, false, false, 1, 2⟩
        = RemoveGameplayEffectFromTarget env0 wAct actorStale (some 5) row1 := by
  have h := claim_C10 env0 w0 actor0 (some 5) row1 7 1
    (by decide) (by decide) (by decide) (by decide) (by decide)
  exact ⟨h.1, h.2 wAct actorStale (some 5)
    ⟨some 1, .DoNotApply, .RemoveOnEndOverlap, false, false, 1, 2⟩ (by decide)⟩

end GASCore

end ConcreteRuns
